import Mathlib

/-!
Verification of the skai example-generation pipeline core.

Shallow embedding of `src/skai/generate_examples.py` (functions
`_mostly_blank`, `align_after_image`, `_center_crop`, `_make_example_id`,
`_remove_large_images`, `GenerateExamplesFn._create_example`,
`GenerateExamplesFn.process`) and proofs about it.

Modelling conventions:
* numpy `uint8` pixel values are modelled as `ℕ`; an RGB image is a row-major
  list of rows of `(r, g, b)` pixels (the channels-last `(H, W, 3)` layout that
  every call site in `generate_examples.py` uses: `np.zeros((s, s, 3))`,
  `image[i:i+r, j:j+c, :]`, `tf.io.encode_png`).
* Python slicing `a[i:j]` (including negative-index normalisation and
  clamping) is modelled by `pySlice`.
* OpenCV's fixed-point RGB→gray conversion and the exact real arithmetic of
  `cv2.matchTemplate(..., TM_CCOEFF_NORMED)` are modelled exactly; a
  correlation score is kept as the integer pair (numerator, squared
  denominator) of the denominator-cleared NCC formula, so that score
  comparisons are exact and executable (`scoreVal` maps a score to its real
  value `num / √den2`; division by zero yields 0, matching the convention
  that a zero-variance window is given score 0 — no theorem below depends
  on a zero-variance window).
* Exceptions (the OpenCV size assertion in `matchTemplate`, Python's
  `KeyError`/unpacking errors on `scalar_features['coordinates']`) are
  modelled by `Except Unit` / `Option`.
* TensorFlow `Example` protos are modelled as ordered association lists from
  feature name to feature value; PNG encoding is modelled by carrying the
  image itself (`encode_png` is lossless, hence injective on images).
  Feature names are assumed distinct (in the pipeline the scalar names are
  `coordinates` and `label`, disjoint from the eight image/id fields).
* The MD5 digest inside `_make_example_id` is idealised as an injective
  function of the serialized tuple (collision-freedom of the digest); the
  `pickle` serialization is modelled by an explicit injective encoding.
-/

/-- An RGB image: row-major rows of `(r, g, b)` pixels, channels last. -/
abbrev RGBImage := List (List (ℕ × ℕ × ℕ))

/-- A single-channel (grayscale) image. -/
abbrev GrayImage := List (List ℕ)

/-- Number of rows (`shape[0]`). -/
def rowsOf (g : List (List α)) : ℕ := g.length

/-- Number of columns (`shape[1]`, the length of the first row). -/
def colsOf (g : List (List α)) : ℕ := (g.headD []).length

/-- The image is an `h × w` rectangle (every row has length `w`). -/
def rectangular (g : List (List α)) (h w : ℕ) : Prop :=
  g.length = h ∧ ∀ r ∈ g, r.length = w

instance (g : List (List α)) (h w : ℕ) : Decidable (rectangular g h w) := by
  unfold rectangular; infer_instance

/-- Python index normalisation for a slice endpoint on a sequence of length
`len`: negative indices count from the end (clamped at 0), positive ones are
clamped at `len`. -/
def pyIdx (len : ℕ) (i : ℤ) : ℕ :=
  if i < 0 then ((len : ℤ) + i).toNat else min i.toNat len

/-- Python slice `xs[a:b]`. -/
def pySlice (xs : List α) (a b : ℤ) : List α :=
  let s := pyIdx xs.length a
  let e := pyIdx xs.length b
  (xs.drop s).take (e - s)

/-- numpy 2-d slice `img[a:b, c:d]` (channels, if any, ride along inside the
row elements, which models a trailing `:`). -/
def sliceRC (img : List (List α)) (a b c d : ℤ) : List (List α) :=
  (pySlice img a b).map (fun r => pySlice r c d)

/-- `cv2.cvtColor(..., COLOR_RGB2GRAY)` on a `uint8` pixel: OpenCV's
fixed-point formula `(R*4899 + G*9617 + B*1868 + 2^13) >> 14`
(coefficients are `0.299/0.587/0.114` scaled by `2^14`). -/
def rgb2gray (p : ℕ × ℕ × ℕ) : ℕ :=
  (4899 * p.1 + 9617 * p.2.1 + 1868 * p.2.2 + 8192) / 16384

/-- `_to_grayscale` from `generate_examples.py`. -/
def _to_grayscale (image : RGBImage) : GrayImage :=
  image.map (fun r => r.map rgb2gray)

/-- Flatten one row of pixels to its 3 channel values per pixel, in memory
order (used to model numpy reduction over axis 0 of an `(H, W, 3)` array:
the reduced array has `W*3` cells `(col, channel)`). -/
def rowFlat (r : List (ℕ × ℕ × ℕ)) : List ℕ :=
  r.flatMap (fun p => [p.1, p.2.1, p.2.2])

/-- Pointwise maximum of the rows (numpy `arr.max(axis=0)`). -/
def maxAxis0 : List (List ℕ) → List ℕ
  | [] => []
  | x :: xs => xs.foldl (fun acc r => List.zipWith max acc r) x

/-- `_mostly_blank` from `generate_examples.py`, exactly as written: it
reduces with `image.max(axis=0)` — axis 0 of whatever array it is given.
Its callers pass channels-last `(H, W, 3)` crops, for which axis 0 is the
spatial row axis (its docstring instead assumes axis 0 is the channel
axis; see `C1_blank_axis_bug`).  `image.size == 0` returns Python `0`,
i.e. falsy. The threshold test
`(flattened.size - num_non_blank) / flattened.size >= 0.25` is exact here
(its operands are small integers), and for a nonempty `flattened` it is
equivalent to the cross-multiplied integer comparison
`4 * (size - num_non_blank) >= size` used below (see `mostly_blank_frac`). -/
def _mostly_blank (image : RGBImage) : Bool :=
  let sz := (image.map (fun r => (rowFlat r).length)).sum
  if sz = 0 then false
  else
    let flattened := maxAxis0 (image.map rowFlat)
    let num_non_blank := (flattened.filter (fun v => v ≠ 0)).length
    decide (4 * (flattened.length - num_non_blank) ≥ flattened.length)

/-- Blank rule as the spec words it (for comparison with `_mostly_blank`):
"the fraction of spatial positions whose max-across-channel value is exactly
zero is ≥ 0.25" (cross-multiplied to integers), an empty image being not
blank. -/
def spec_is_blank (image : RGBImage) : Bool :=
  let pixels := image.flatten
  if pixels.length = 0 then false
  else
    let blanks := pixels.filter (fun p => max p.1 (max p.2.1 p.2.2) = 0)
    decide (4 * blanks.length ≥ pixels.length)

/-- `_center_crop` from `generate_examples.py`: crop origin
`(rows//2 - crop//2, cols//2 - crop//2)` (which Python may make negative,
hence the `ℤ`-valued Python slice). -/
def _center_crop (image : RGBImage) (crop_size : ℕ) : RGBImage :=
  let i : ℤ := (rowsOf image / 2 : ℕ) - (crop_size / 2 : ℕ)
  let j : ℤ := (colsOf image / 2 : ℕ) - (crop_size / 2 : ℕ)
  sliceRC image i (i + crop_size) j (j + crop_size)

/-- Length-prefixed string serialization (one field of the pickled tuple). -/
def strRepr (s : String) : String := Nat.repr s.length ++ ":" ++ s

/-- Serialization of a rational (one float field of the pickled tuple). -/
def ratRepr (q : ℚ) : String := Int.repr q.num ++ "/" ++ Nat.repr q.den

/-- `pickle.dumps((longitude, latitude, before_image_id, after_image_id))`,
modelled by an explicit injective canonical encoding of the 4-tuple. -/
def pickleDumps (longitude latitude : ℚ) (before_image_id after_image_id : String) : String :=
  "(" ++ ratRepr longitude ++ "," ++ ratRepr latitude ++ ","
      ++ strRepr before_image_id ++ "," ++ strRepr after_image_id ++ ")"

/-- `hashlib.md5(.).hexdigest()`, idealised as an injective digest of its
input bytes (we use the bytes themselves as the stand-in digest; every
theorem below depends only on equality/inequality of ids, never on the
digest's shape, so any injective deterministic digest yields the same
results). -/
def md5Hexdigest (s : String) : String := s

/-- `_make_example_id` from `generate_examples.py`. -/
def _make_example_id (longitude latitude : ℚ)
    (before_image_id after_image_id : String) : String :=
  md5Hexdigest (pickleDumps longitude latitude before_image_id after_image_id)

/-- A bytes feature payload: either a literal byte string or PNG-encoded
image content (PNG encoding modelled by the image itself). -/
inductive BytesValue where
  | str (s : String)
  | png (img : RGBImage)
deriving DecidableEq, Repr

/-- A TF `Feature` value. -/
inductive Feature where
  | bytes_list (b : BytesValue)
  | float_list (xs : List ℚ)
deriving DecidableEq, Repr

/-- A TF `Example`: the `features.feature` map, as an ordered association
list from feature name to value. -/
abbrev TfExample := List (String × Feature)

/-- Protobuf map lookup (first binding wins; names are unique in practice). -/
def dictGet (m : List (String × α)) (k : String) : Option α :=
  (m.find? (fun kv => kv.1 == k)).map (fun kv => kv.2)

/-- `_remove_large_images` from `generate_examples.py`: `CopyFrom` then
`del features.feature['pre_image_png_large']` and
`del features.feature['post_image_png_large']`. -/
def _remove_large_images (e : TfExample) : TfExample :=
  ((e.filter (fun kv => kv.1 ≠ "pre_image_png_large")).filter
    (fun kv => kv.1 ≠ "post_image_png_large"))

/-- An exact TM_CCOEFF_NORMED correlation score, kept as the pair of its
numerator and squared denominator: the score's value is `num / √den2`.
The components are integers: with `n` the number of template pixels,
`St = Σ T`, `Sw = Σ W`, OpenCV's mean-centred sums satisfy
`Σ T'·W' = (n·Σ T·W - St·Sw) / n` and `Σ T'² = (n·Σ T² - St²) / n`, so the
`1/n` factors cancel in `Σ T'W' / √(Σ T'² · Σ W'²)` and the score equals
`(n·Σ TW - St·Sw) / √((n·Σ T² - St²)·(n·Σ W² - Sw²))`, an exact quotient of
integers and an integer square root (proved in `ccoeffNormedScore_eq_ncc`). -/
structure Score where
  num : ℤ
  den2 : ℤ
deriving DecidableEq, Repr

/-- Sign of a score's value (`den2 = 0` is the degenerate zero-variance
case, whose value is taken to be 0). -/
def Score.sgn (s : Score) : ℤ :=
  if s.den2 = 0 then 0 else if s.num < 0 then -1 else if s.num = 0 then 0 else 1

/-- Exact, executable comparison `value a < value b` of two scores
(`value s = s.num / √s.den2`), by sign analysis and cross-multiplied
squares.  Sound for `0 ≤ den2` (see `scoreVal_lt_iff`). -/
def scoreVal_lt (a b : Score) : Bool :=
  if a.sgn < b.sgn then true
  else if b.sgn < a.sgn then false
  else if a.sgn = 1 then decide (a.num * a.num * b.den2 < b.num * b.num * a.den2)
  else if a.sgn = -1 then decide (b.num * b.num * a.den2 < a.num * a.num * b.den2)
  else false

/-- The real value of a score (Mathlib's `x / 0 = 0` convention matches the
zero-variance-window-scores-0 convention). -/
noncomputable def scoreVal (s : Score) : ℝ := (s.num : ℝ) / Real.sqrt (s.den2 : ℝ)

/-- The values of a grayscale grid, flattened, as integers. -/
def gridVals (g : GrayImage) : List ℤ := g.flatten.map Int.ofNat

/-- The `h × w` sub-grid of `g` with top-left corner `(i, j)`
(row `i`, column `j`); indices here are the in-range ones produced by the
template-match scan, so plain `drop`/`take` suffice. -/
def subgrid (g : GrayImage) (i h j w : ℕ) : GrayImage :=
  ((g.drop i).take h).map (fun r => (r.drop j).take w)

/-- The TM_CCOEFF_NORMED score of matching template `templ` against the
window of `image` whose top-left corner is column `x`, row `y`:
`R(x,y) = Σ T'·W' / √(Σ T'² · Σ W'²)` with `T' = T - mean T` and
`W' = W - mean W` (OpenCV's documented formula), in the exact
denominator-cleared integer form described at `Score`
(`n` is the same for every window, and the `1/n` factors cancel within
each score, so each score's value is exactly OpenCV's `R(x,y)`). -/
def ccoeffNormedScore (image templ : GrayImage) (x y : ℕ) : Score :=
  let tv := gridVals templ
  let wv := gridVals (subgrid image y (rowsOf templ) x (colsOf templ))
  let n : ℤ := tv.length
  let st := tv.sum
  let sw := wv.sum
  { num := n * (List.zipWith (fun t w => t * w) tv wv).sum - st * sw,
    den2 := (n * (tv.map (fun t => t * t)).sum - st * st) *
            (n * (wv.map (fun w => w * w)).sum - sw * sw) }

/-- `cv2.matchTemplate(image, templ, TM_CCOEFF_NORMED)`: requires the
template to be nonempty and no larger than the image (otherwise OpenCV
raises, modelled by `none`); returns the
`(rows(image)-rows(templ)+1) × (cols(image)-cols(templ)+1)` result grid of
scores, `result[y][x]` scoring the window with top-left corner `(x, y)`. -/
def matchTemplate (image templ : GrayImage) : Option (List (List Score)) :=
  if 0 < rowsOf templ ∧ 0 < colsOf templ ∧
     rowsOf templ ≤ rowsOf image ∧ colsOf templ ≤ colsOf image then
    some ((List.range (rowsOf image - rowsOf templ + 1)).map (fun y =>
      (List.range (colsOf image - colsOf templ + 1)).map (fun x =>
        ccoeffNormedScore image templ x y)))
  else none

/-- One row of the result grid, paired with its `(y, x)` coordinates. -/
def indexRow (y : ℕ) : ℕ → List Score → List ((ℕ × ℕ) × Score)
  | _, [] => []
  | x0, s :: rest => ((y, x0), s) :: indexRow y (x0 + 1) rest

/-- The result grid flattened in row-major scan order, each cell paired with
its `(y, x)` coordinates. -/
def indexedCellsFrom : ℕ → List (List Score) → List ((ℕ × ℕ) × Score)
  | _, [] => []
  | y0, r :: rest => indexRow y0 0 r ++ indexedCellsFrom (y0 + 1) rest

/-- All cells of the result grid in row-major scan order. -/
def indexedCells (grid : List (List Score)) : List ((ℕ × ℕ) × Score) :=
  indexedCellsFrom 0 grid

/-- The max-location half of `cv2.minMaxLoc`: scan the result in row-major
order, updating only on strictly greater values (so the first maximum is
kept), and return the max location as an `(x, y)` point. -/
def minMaxLocMax (grid : List (List Score)) : ℕ × ℕ :=
  match indexedCells grid with
  | [] => (0, 0)
  | c :: cs =>
    let best := cs.foldl (fun b d => if scoreVal_lt b.2 d.2 then d else b) c
    (best.1.2, best.1.1)

/-- `align_after_image` from `generate_examples.py`: template-match the
before-luminance against the after-luminance, take the max location `(j, i)`,
and crop `after_image[i:i+rows, j:j+cols, :]` with the before image's
`rows × cols`.  `none` models the OpenCV size-assertion failure. -/
def align_after_image (before_image after_image : RGBImage) : Option RGBImage :=
  (matchTemplate (_to_grayscale after_image) (_to_grayscale before_image)).map
    (fun result =>
      let ji := minMaxLocMax result
      let i : ℕ := ji.2
      let j : ℕ := ji.1
      let rows := rowsOf before_image
      let cols := colsOf before_image
      sliceRC after_image (i : ℤ) ((i : ℤ) + rows) (j : ℤ) ((j : ℤ) + cols))

/-- A cell of the result grid by `(row, column)` coordinates. -/
def cellAt (grid : List (List Score)) (y x : ℕ) : Option Score :=
  (grid.get? y).bind (fun r => r.get? x)

/-- `(y, x)` scan-order (row-major) precedence. -/
def scanBefore (p q : ℕ × ℕ) : Prop := p.1 < q.1 ∨ (p.1 = q.1 ∧ p.2 < q.2)

/-- Specification-side characterisation of the offset `cv2.minMaxLoc`
selects: `loc = (y, x)` holds a cell whose score value is a maximum of the
whole result grid, and every cell strictly earlier in row-major scan order
scores strictly less (ties broken by the first maximum encountered). -/
def isFirstMax (grid : List (List Score)) (loc : ℕ × ℕ) : Prop :=
  ∃ s, cellAt grid loc.1 loc.2 = some s ∧
    (∀ y x s', cellAt grid y x = some s' → scoreVal s' ≤ scoreVal s) ∧
    (∀ y x s', cellAt grid y x = some s' → scanBefore (y, x) loc →
      scoreVal s' < scoreVal s)

/-- The four Beam metrics counters of `GenerateExamplesFn`, as additive
deltas: `generated` is `generated_examples_count`, `rejected` is
`rejected_examples_count`, `before_blank` is `before_patch_blank_count`,
`after_blank` is `after_patch_blank_count`. -/
structure Counters where
  generated : ℕ
  rejected : ℕ
  before_blank : ℕ
  after_blank : ℕ
deriving DecidableEq, Repr

/-- Pointwise sum of counter deltas. -/
def Counters.add (a b : Counters) : Counters :=
  ⟨a.generated + b.generated, a.rejected + b.rejected,
   a.before_blank + b.before_blank, a.after_blank + b.after_blank⟩

/-- The all-zero delta. -/
def Counters.zero : Counters := ⟨0, 0, 0, 0⟩

/-- A map from scalar feature names to their lists of values (floats are
modelled as `ℚ`). -/
abbrev ScalarMap := List (String × List ℚ)

/-- `_FeatureUnion` from `generate_examples.py`: a dataclass of three
nullable fields, intended (but not checked) to have exactly one non-null
attribute. -/
structure _FeatureUnion where
  scalar_features : Option ScalarMap := none
  before_image : Option (String × RGBImage) := none
  after_image : Option (String × RGBImage) := none
deriving DecidableEq, Repr

/-- Python truthiness of the `scalar_features` field: a `None` or an empty
dict is falsy. -/
def scalarTruthy : Option ScalarMap → Bool
  | some m => !m.isEmpty
  | none => false

/-- `dict.__setitem__`: replace the value in place if the key exists,
else append. -/
def dictSet (m : List (String × α)) (k : String) (v : α) : List (String × α) :=
  if m.any (fun kv => kv.1 == k) then
    m.map (fun kv => if kv.1 == k then (k, v) else kv)
  else m ++ [(k, v)]

/-- `dict.update`: `dictSet` for every binding of `d`, in order. -/
def dictUpdate (m d : List (String × α)) : List (String × α) :=
  d.foldl (fun acc kv => dictSet acc kv.1 kv.2) m

/-- The result of the classification loop at the top of
`GenerateExamplesFn.process`. -/
structure Classified where
  scalar_features : ScalarMap
  before_images : List (String × RGBImage)
  after_images : List (String × RGBImage)
deriving DecidableEq, Repr

/-- One iteration of the classification loop:
`if feature.scalar_features: ... elif feature.before_image: ...
elif feature.after_image: ...` — Python truthiness included (an empty
scalar dict is falsy and falls through; a populated earlier field shadows
the later ones; a fragment with no truthy field is silently skipped). -/
def classifyStep (acc : Classified) (f : _FeatureUnion) : Classified :=
  if scalarTruthy f.scalar_features then
    { acc with scalar_features := dictUpdate acc.scalar_features (f.scalar_features.getD []) }
  else
    match f.before_image with
    | some bi => { acc with before_images := acc.before_images ++ [bi] }
    | none =>
      match f.after_image with
      | some ai => { acc with after_images := acc.after_images ++ [ai] }
      | none => acc

/-- The whole classification loop of `GenerateExamplesFn.process`. -/
def classifyFeatures (features : List _FeatureUnion) : Classified :=
  features.foldl classifyStep ⟨[], [], []⟩

/-- `np.zeros((n, n, 3), dtype=np.uint8)`. -/
def zeroImage (n : ℕ) : RGBImage :=
  List.replicate n (List.replicate n (0, 0, 0))

/-- The feature map assembled by `_create_example` on its success path: the
eight `add_bytes_feature` calls in source order, followed by one
`add_float_list_feature` per scalar feature. -/
def assembleExample (encoded_coordinates example_id : String)
    (before_image before_crop : RGBImage) (before_image_id : String)
    (after_image after_crop : RGBImage) (after_image_id : String)
    (scalar_features : ScalarMap) : TfExample :=
  [("encoded_coordinates", Feature.bytes_list (BytesValue.str encoded_coordinates)),
   ("example_id", Feature.bytes_list (BytesValue.str example_id)),
   ("pre_image_png_large", Feature.bytes_list (BytesValue.png before_image)),
   ("pre_image_png", Feature.bytes_list (BytesValue.png before_crop)),
   ("pre_image_id", Feature.bytes_list (BytesValue.str before_image_id)),
   ("post_image_png_large", Feature.bytes_list (BytesValue.png after_image)),
   ("post_image_png", Feature.bytes_list (BytesValue.png after_crop)),
   ("post_image_id", Feature.bytes_list (BytesValue.str after_image_id))]
  ++ scalar_features.map (fun kv => (kv.1, Feature.float_list kv.2))

/-- `GenerateExamplesFn._create_example`.  Returns
`.error ()` when the Python original would raise (OpenCV size assertion in
`align_after_image`, or `KeyError`/unpacking failure on
`scalar_features['coordinates']`), `.ok (none, deltas)` when the pair is
rejected by a blank check (with the counter increments performed before
`return None`), and `.ok (some e, deltas)` when an example is built. -/
def _create_example (use_before_image : Bool) (example_patch_size : ℕ)
    (encoded_coordinates : String)
    (before_image_id : String) (before_image : RGBImage)
    (after_image_id : String) (after_image0 : RGBImage)
    (scalar_features : ScalarMap) : Except Unit (Option TfExample × Counters) :=
  match (if use_before_image then align_after_image before_image after_image0
         else some after_image0) with
  | none => .error ()
  | some after_image =>
    let before_crop := _center_crop before_image example_patch_size
    if use_before_image ∧ _mostly_blank before_crop then .ok (none, ⟨0, 1, 1, 0⟩)
    else
      let after_crop := _center_crop after_image example_patch_size
      if _mostly_blank after_crop then .ok (none, ⟨0, 1, 0, 1⟩)
      else
        match dictGet scalar_features "coordinates" with
        | some [longitude, latitude] =>
          .ok (some
            (assembleExample encoded_coordinates
              (_make_example_id longitude latitude before_image_id after_image_id)
              before_image before_crop before_image_id
              after_image after_crop after_image_id scalar_features),
            Counters.zero)
        | _ => .error ()

/-- The `for i, j in itertools.product(...)` emission loop of
`GenerateExamplesFn.process`, over the (before, after) cross-product pairs
in before-major order, threading the yielded examples and the counter
deltas (a per-pair `Example` increments `generated`). -/
def emitPairs (use_before_image : Bool) (example_patch_size : ℕ)
    (encoded_coordinates : String) (scalar_features : ScalarMap) :
    List ((String × RGBImage) × (String × RGBImage)) →
    List TfExample × Counters → Except Unit (List TfExample × Counters)
  | [], acc => .ok acc
  | (b, a) :: rest, (out, c) =>
    match _create_example use_before_image example_patch_size encoded_coordinates
        b.1 b.2 a.1 a.2 scalar_features with
    | .error e => .error e
    | .ok (some ex, dc) =>
      emitPairs use_before_image example_patch_size encoded_coordinates
        scalar_features rest (out ++ [ex], (c.add dc).add ⟨1, 0, 0, 0⟩)
    | .ok (none, dc) =>
      emitPairs use_before_image example_patch_size encoded_coordinates
        scalar_features rest (out, c.add dc)

/-- `GenerateExamplesFn.process`: classify the grouped fragments, reject the
whole group when there are no after-images (or, with before-imagery in use,
no before-images), substitute the synthetic all-zero before-image when
before-imagery is not used, and emit the cross product. -/
def GenerateExamplesFn_process (use_before_image : Bool)
    (large_patch_size example_patch_size : ℕ)
    (grouped_features : String × List _FeatureUnion) :
    Except Unit (List TfExample × Counters) :=
  let cl := classifyFeatures grouped_features.2
  if cl.after_images.isEmpty then .ok ([], ⟨0, 1, 0, 1⟩)
  else if use_before_image ∧ cl.before_images.isEmpty then .ok ([], ⟨0, 1, 1, 0⟩)
  else
    let before_images :=
      if use_before_image then cl.before_images
      else [("", zeroImage large_patch_size)]
    emitPairs use_before_image example_patch_size grouped_features.1
      cl.scalar_features
      (before_images.flatMap (fun b => cl.after_images.map (fun a => (b, a))))
      ([], Counters.zero)

/-! ## Concrete data used by witnesses and counterexamples -/

/-- A gray pixel of intensity `v` (all three channels equal, so OpenCV's
RGB→gray conversion returns exactly `v`). -/
def px (v : ℕ) : ℕ × ℕ × ℕ := (v, v, v)

/-- A 2×2 before image (non-constant, so its correlation denominator is
nonzero). -/
def cexBefore2 : RGBImage := [[px 0, px 2], [px 2, px 0]]

/-- A 2×4 after image — the same height as `cexBefore2`, wider — containing
`cexBefore2`'s content at column offset 1. -/
def cexAfter2 : RGBImage := [[px 1, px 0, px 2, px 1], [px 1, px 2, px 0, px 1]]

/-- A 4×4 after image containing `cexBefore2`'s content embedded at row
offset 1, column offset 1 (`d = 1` border), with no other window an
affine-positive image of the template and no zero-variance window. -/
def cexA3 : RGBImage :=
  [[px 3, px 1, px 1, px 3],
   [px 1, px 0, px 2, px 1],
   [px 1, px 2, px 0, px 1],
   [px 3, px 1, px 1, px 3]]

/-- 2×2 all-ones image (never blank under either blank rule). -/
def ones2 : RGBImage := [[px 1, px 1], [px 1, px 1]]

/-- 2×2 all-twos image. -/
def twos2 : RGBImage := [[px 2, px 2], [px 2, px 2]]

/-- 2×2 all-threes image. -/
def threes2 : RGBImage := [[px 3, px 3], [px 3, px 3]]

/-- 2×2 all-zero image (blank under either blank rule). -/
def zeros2 : RGBImage := [[px 0, px 0], [px 0, px 0]]

/-- A scalar-features fragment with coordinates `(3, 7)` and label `1`. -/
def scalarFrag : _FeatureUnion :=
  { scalar_features := some [("coordinates", [3, 7]), ("label", [1])] }

/-- A before-image fragment. -/
def beforeFrag (id : String) (img : RGBImage) : _FeatureUnion :=
  { before_image := some (id, img) }

/-- An after-image fragment. -/
def afterFrag (id : String) (img : RGBImage) : _FeatureUnion :=
  { after_image := some (id, img) }

/-- A group with 2 before-images and 3 after-images, all non-blank, all the
same size (so alignment is the identity crop), with distinct source ids. -/
def frags6 : List _FeatureUnion :=
  [scalarFrag, beforeFrag "b0" ones2, beforeFrag "b1" twos2,
   afterFrag "a0" ones2, afterFrag "a1" twos2, afterFrag "a2" threes2]

/-- A malformed fragment with two populated variants (both `scalar_features`
and `before_image` non-null). -/
def fragBoth : _FeatureUnion :=
  { scalar_features := some [("coordinates", [3, 7])],
    before_image := some ("b0", ones2) }

/-- A malformed fragment with zero populated variants. -/
def fragNone : _FeatureUnion := {}

/-- A group with scalar features and one before-image but no after-images. -/
def fragsNoAfter : List _FeatureUnion := [scalarFrag, beforeFrag "b0" ones2]

/-- A group with scalar features and one after-image but no before-images. -/
def fragsNoBefore : List _FeatureUnion := [scalarFrag, afterFrag "a0" ones2]

/-- A no-before-imagery group with one blank and one non-blank after-image. -/
def fragsOneBlank : List _FeatureUnion :=
  [scalarFrag, afterFrag "a0" zeros2, afterFrag "a1" ones2]

/-- The example built by a successful `_create_example` call (junk `[]` in
the impossible cases); used to name the per-pair outputs in witnesses. -/
def createdExampleOf (use_before_image : Bool) (example_patch_size : ℕ)
    (encoded_coordinates : String) (scalar_features : ScalarMap)
    (b a : String × RGBImage) : TfExample :=
  match _create_example use_before_image example_patch_size encoded_coordinates
      b.1 b.2 a.1 a.2 scalar_features with
  | .ok (some e, _) => e
  | _ => []

/-- The output list of a non-raising `process` run (junk `[]` on error). -/
def okOut (r : Except Unit (List TfExample × Counters)) : List TfExample :=
  match r with
  | .ok p => p.1
  | .error _ => []

/-- The counters of a non-raising `process` run (junk zeros on error). -/
def okCnt (r : Except Unit (List TfExample × Counters)) : Counters :=
  match r with
  | .ok p => p.2
  | .error _ => Counters.zero

/-! ## Shape and slicing lemmas -/

theorem rowsOf_gray (img : RGBImage) : rowsOf (_to_grayscale img) = rowsOf img := by
  simp [rowsOf, _to_grayscale]

theorem colsOf_gray (img : RGBImage) : colsOf (_to_grayscale img) = colsOf img := by
  cases img with
  | nil => rfl
  | cons r rest => simp [colsOf, _to_grayscale]

theorem rect_cols {g : List (List α)} {h w : ℕ} (hpos : 0 < h)
    (hr : rectangular g h w) : colsOf g = w := by
  obtain ⟨h1, h2⟩ := hr
  cases g with
  | nil => simp [rowsOf] at h1; omega
  | cons r rest => exact h2 r (List.mem_cons_self r rest)

theorem rect_gray {img : RGBImage} {h w : ℕ} (hr : rectangular img h w) :
    rectangular (_to_grayscale img) h w := by
  obtain ⟨h1, h2⟩ := hr
  refine ⟨by simpa [_to_grayscale] using h1, ?_⟩
  intro r hrm
  simp only [_to_grayscale, List.mem_map] at hrm
  obtain ⟨r0, hr0, rfl⟩ := hrm
  simpa using h2 r0 hr0

theorem pySlice_full (xs : List α) : pySlice xs 0 (xs.length : ℤ) = xs := by
  have h0 : ¬ ((xs.length : ℤ) < 0) := by omega
  simp [pySlice, pyIdx, h0]

theorem sliceRC_full {img : List (List α)} {h w : ℕ}
    (hr : rectangular img h w) : sliceRC img 0 (h : ℤ) 0 (w : ℤ) = img := by
  obtain ⟨h1, h2⟩ := hr
  unfold sliceRC
  rw [← h1, pySlice_full]
  have hrow : ∀ r ∈ img, pySlice r 0 ((w : ℕ) : ℤ) = id r := by
    intro r hrm
    have hw := h2 r hrm
    rw [← hw, pySlice_full]; rfl
  rw [List.map_congr_left hrow, List.map_id]

theorem matchTemplate_eq_grid {image templ : GrayImage} {hi wi ht wt : ℕ}
    (hri : rectangular image hi wi) (hrt : rectangular templ ht wt)
    (h1 : 0 < ht) (h2 : 0 < wt) (h3 : ht ≤ hi) (h4 : wt ≤ wi) :
    matchTemplate image templ =
      some ((List.range (hi - ht + 1)).map (fun y =>
        (List.range (wi - wt + 1)).map (fun x =>
          ccoeffNormedScore image templ x y))) := by
  have e1 : rowsOf templ = ht := hrt.1
  have e2 : colsOf templ = wt := rect_cols h1 hrt
  have e3 : rowsOf image = hi := hri.1
  have e4 : colsOf image = wi := rect_cols (lt_of_lt_of_le h1 h3) hri
  unfold matchTemplate
  rw [e1, e2, e3, e4, if_pos ⟨h1, h2, h3, h4⟩]

theorem minMaxLocMax_single (s : Score) : minMaxLocMax [[s]] = (0, 0) := rfl

/-- C2, counterexample: `cexAfter2` is *not* strictly larger than
`cexBefore2` in both dimensions (their heights are equal), yet
`align_after_image` resolves to the crop at column offset 1 — not the
zero-displacement crop, refuting "the valid-offset search space degenerates
to the single offset (0,0)" for this geometry. -/
theorem C2_counterexample :
    rowsOf cexAfter2 = rowsOf cexBefore2 ∧
    align_after_image cexBefore2 cexAfter2 = some [[px 0, px 2], [px 2, px 0]] ∧
    [[px 0, px 2], [px 2, px 0]] ≠ sliceRC cexAfter2 0 2 0 2 := by
  refine ⟨rfl, by decide, by decide⟩

/-- C2, amended: whenever the after image is at least as large as the
(nonempty) before image in both dimensions, `align_after_image` does not
raise; and when the two images have exactly the same dimensions the offset
search space is the single offset `(0, 0)`, so the zero-displacement crop —
the whole after image — is returned. -/
theorem C2_align_degenerate (b a : RGBImage) (hb wb ha wa : ℕ)
    (hrb : rectangular b hb wb) (hra : rectangular a ha wa)
    (h1 : 0 < hb) (h2 : 0 < wb) (h3 : hb ≤ ha) (h4 : wb ≤ wa) :
    (∃ c, align_after_image b a = some c) ∧
    (ha = hb → wa = wb → align_after_image b a = some a) := by
  have hga : rectangular (_to_grayscale a) ha wa := rect_gray hra
  have hgb : rectangular (_to_grayscale b) hb wb := rect_gray hrb
  have hmt := matchTemplate_eq_grid hga hgb h1 h2 h3 h4
  constructor
  · exact ⟨_, by rw [align_after_image, hmt]; rfl⟩
  · intro e1 e2
    rw [e1, e2] at hmt hra
    have hgrid : (List.range (hb - hb + 1)).map (fun y =>
        (List.range (wb - wb + 1)).map (fun x =>
          ccoeffNormedScore (_to_grayscale a) (_to_grayscale b) x y)) =
        [[ccoeffNormedScore (_to_grayscale a) (_to_grayscale b) 0 0]] := by
      have hr : List.range 1 = [0] := rfl
      simp [Nat.sub_self, hr]
    rw [hgrid] at hmt
    rw [align_after_image, hmt]
    have hrows : rowsOf b = hb := hrb.1
    have hcols : colsOf b = wb := rect_cols h1 hrb
    simp only [Option.map_some', minMaxLocMax_single, hrows, hcols]
    norm_num
    exact sliceRC_full hra

/-- Witness for `C2_align_degenerate` at a concrete equal-size pair. -/
theorem C2_align_degenerate_witness :
    (∃ c, align_after_image cexBefore2 ones2 = some c) ∧
    (2 = 2 → 2 = 2 → align_after_image cexBefore2 ones2 = some ones2) :=
  C2_align_degenerate cexBefore2 ones2 2 2 2 2 (by decide) (by decide)
    (by decide) (by decide) (by decide) (by decide)

/-! ## Soundness of the executable score comparison -/

theorem scoreVal_den_zero {a : Score} (h : a.den2 = 0) : scoreVal a = 0 := by
  rw [scoreVal, h]
  simp

theorem sgn_cases_neg {a : Score} (h : a.sgn = -1) : a.den2 ≠ 0 ∧ a.num < 0 := by
  unfold Score.sgn at h
  split_ifs at h with h1 h2 h3
  all_goals omega

theorem sgn_cases_zero {a : Score} (h : a.sgn = 0) : a.den2 = 0 ∨ a.num = 0 := by
  unfold Score.sgn at h
  split_ifs at h with h1 h2 h3 <;> omega

theorem sgn_cases_pos {a : Score} (h : a.sgn = 1) : a.den2 ≠ 0 ∧ 0 < a.num := by
  unfold Score.sgn at h
  split_ifs at h with h1 h2 h3 <;> omega

theorem scoreVal_neg_iff {a : Score} (h : 0 < a.den2) :
    scoreVal a < 0 ↔ a.num < 0 := by
  have hs : (0 : ℝ) < Real.sqrt (a.den2 : ℝ) :=
    Real.sqrt_pos.mpr (by exact_mod_cast h)
  rw [scoreVal, div_neg_iff]
  constructor
  · rintro (⟨-, h2⟩ | ⟨h1, -⟩)
    · exact absurd h2 (not_lt.mpr hs.le)
    · exact_mod_cast h1
  · intro h1
    exact Or.inr ⟨by exact_mod_cast h1, hs⟩

theorem scoreVal_pos_iff {a : Score} (h : 0 < a.den2) :
    0 < scoreVal a ↔ 0 < a.num := by
  have hs : (0 : ℝ) < Real.sqrt (a.den2 : ℝ) :=
    Real.sqrt_pos.mpr (by exact_mod_cast h)
  rw [scoreVal, div_pos_iff]
  constructor
  · rintro (⟨h1, -⟩ | ⟨-, h2⟩)
    · exact_mod_cast h1
    · exact absurd h2 (not_lt.mpr hs.le)
  · intro h1
    exact Or.inl ⟨by exact_mod_cast h1, hs⟩

theorem scoreVal_neg_of_sgn {a : Score} (ha : 0 ≤ a.den2) (h : a.sgn = -1) :
    scoreVal a < 0 := by
  obtain ⟨h1, h2⟩ := sgn_cases_neg h
  exact (scoreVal_neg_iff (lt_of_le_of_ne ha (Ne.symm h1))).mpr h2

theorem scoreVal_zero_of_sgn {a : Score} (h : a.sgn = 0) : scoreVal a = 0 := by
  rcases sgn_cases_zero h with h1 | h1
  · exact scoreVal_den_zero h1
  · rw [scoreVal, h1]
    simp

theorem scoreVal_pos_of_sgn {a : Score} (ha : 0 ≤ a.den2) (h : a.sgn = 1) :
    0 < scoreVal a := by
  obtain ⟨h1, h2⟩ := sgn_cases_pos h
  exact (scoreVal_pos_iff (lt_of_le_of_ne ha (Ne.symm h1))).mpr h2

theorem div_sqrt_lt_pos {n1 n2 d1 d2 : ℝ} (hn1 : 0 < n1) (hn2 : 0 < n2)
    (hd1 : 0 < d1) (hd2 : 0 < d2) :
    (n1 / Real.sqrt d1 < n2 / Real.sqrt d2 ↔ n1 * n1 * d2 < n2 * n2 * d1) := by
  rw [div_lt_div_iff₀ (Real.sqrt_pos.mpr hd1) (Real.sqrt_pos.mpr hd2)]
  have e1 : n1 * n1 * d2 = (n1 * Real.sqrt d2) * (n1 * Real.sqrt d2) := by
    have : Real.sqrt d2 * Real.sqrt d2 = d2 := Real.mul_self_sqrt hd2.le
    nlinarith [this]
  have e2 : n2 * n2 * d1 = (n2 * Real.sqrt d1) * (n2 * Real.sqrt d1) := by
    have : Real.sqrt d1 * Real.sqrt d1 = d1 := Real.mul_self_sqrt hd1.le
    nlinarith [this]
  rw [e1, e2]
  have p1 : (0 : ℝ) ≤ n1 * Real.sqrt d2 := by positivity
  have p2 : (0 : ℝ) ≤ n2 * Real.sqrt d1 := by positivity
  exact mul_self_lt_mul_self_iff p1 p2

theorem div_sqrt_lt_neg {n1 n2 d1 d2 : ℝ} (hn1 : n1 < 0) (hn2 : n2 < 0)
    (hd1 : 0 < d1) (hd2 : 0 < d2) :
    (n1 / Real.sqrt d1 < n2 / Real.sqrt d2 ↔ n2 * n2 * d1 < n1 * n1 * d2) := by
  have h : n1 / Real.sqrt d1 < n2 / Real.sqrt d2 ↔
      (-n2) / Real.sqrt d2 < (-n1) / Real.sqrt d1 := by
    rw [neg_div, neg_div, neg_lt_neg_iff]
  rw [h, div_sqrt_lt_pos (by linarith) (by linarith) hd2 hd1]
  constructor <;> intro <;> nlinarith

/-- Soundness of the executable comparison `scoreVal_lt`: for scores with
nonnegative squared denominators it decides the strict order of the real
score values. -/
theorem scoreVal_lt_iff {a b : Score} (ha : 0 ≤ a.den2) (hb : 0 ≤ b.den2) :
    scoreVal_lt a b = true ↔ scoreVal a < scoreVal b := by
  have htria : a.sgn = -1 ∨ a.sgn = 0 ∨ a.sgn = 1 := by
    unfold Score.sgn
    split_ifs <;> simp
  have htrib : b.sgn = -1 ∨ b.sgn = 0 ∨ b.sgn = 1 := by
    unfold Score.sgn
    split_ifs <;> simp
  rcases htria with hsa | hsa | hsa <;> rcases htrib with hsb | hsb | hsb
  · -- both negative: compare via squares (direction flipped)
    obtain ⟨hda, hna⟩ := sgn_cases_neg hsa
    obtain ⟨hdb, hnb⟩ := sgn_cases_neg hsb
    have hda' : (0 : ℝ) < (a.den2 : ℝ) := by
      have : 0 < a.den2 := lt_of_le_of_ne ha (Ne.symm hda)
      exact_mod_cast this
    have hdb' : (0 : ℝ) < (b.den2 : ℝ) := by
      have : 0 < b.den2 := lt_of_le_of_ne hb (Ne.symm hdb)
      exact_mod_cast this
    have hval : scoreVal a < scoreVal b ↔
        (b.num : ℝ) * (b.num : ℝ) * (a.den2 : ℝ) <
        (a.num : ℝ) * (a.num : ℝ) * (b.den2 : ℝ) := by
      unfold scoreVal
      exact div_sqrt_lt_neg (by exact_mod_cast hna) (by exact_mod_cast hnb) hda' hdb'
    have hbool : scoreVal_lt a b =
        decide (b.num * b.num * a.den2 < a.num * a.num * b.den2) := by
      unfold scoreVal_lt
      rw [hsa, hsb]
      norm_num
    rw [hbool, hval, decide_eq_true_iff]
    exact_mod_cast Iff.rfl
  · -- a negative, b zero
    have h1 : scoreVal a < 0 := scoreVal_neg_of_sgn ha hsa
    have h2 : scoreVal b = 0 := scoreVal_zero_of_sgn hsb
    have hbool : scoreVal_lt a b = true := by
      unfold scoreVal_lt
      rw [hsa, hsb]
      norm_num
    rw [hbool, h2]
    simp [h1]
  · -- a negative, b positive
    have h1 : scoreVal a < 0 := scoreVal_neg_of_sgn ha hsa
    have h2 : 0 < scoreVal b := scoreVal_pos_of_sgn hb hsb
    have hbool : scoreVal_lt a b = true := by
      unfold scoreVal_lt
      rw [hsa, hsb]
      norm_num
    rw [hbool]
    simp [lt_trans h1 h2]
  · -- a zero, b negative
    have h1 : scoreVal a = 0 := scoreVal_zero_of_sgn hsa
    have h2 : scoreVal b < 0 := scoreVal_neg_of_sgn hb hsb
    have hbool : scoreVal_lt a b = false := by
      unfold scoreVal_lt
      rw [hsa, hsb]
      norm_num
    rw [hbool, h1]
    simp [not_lt.mpr h2.le]
  · -- both zero
    have h1 : scoreVal a = 0 := scoreVal_zero_of_sgn hsa
    have h2 : scoreVal b = 0 := scoreVal_zero_of_sgn hsb
    have hbool : scoreVal_lt a b = false := by
      unfold scoreVal_lt
      rw [hsa, hsb]
      norm_num
    rw [hbool, h1, h2]
    simp
  · -- a zero, b positive
    have h1 : scoreVal a = 0 := scoreVal_zero_of_sgn hsa
    have h2 : 0 < scoreVal b := scoreVal_pos_of_sgn hb hsb
    have hbool : scoreVal_lt a b = true := by
      unfold scoreVal_lt
      rw [hsa, hsb]
      norm_num
    rw [hbool, h1]
    simp [h2]
  · -- a positive, b negative
    have h1 : 0 < scoreVal a := scoreVal_pos_of_sgn ha hsa
    have h2 : scoreVal b < 0 := scoreVal_neg_of_sgn hb hsb
    have hbool : scoreVal_lt a b = false := by
      unfold scoreVal_lt
      rw [hsa, hsb]
      norm_num
    rw [hbool]
    simp [not_lt.mpr (le_of_lt (lt_trans h2 h1))]
  · -- a positive, b zero
    have h1 : 0 < scoreVal a := scoreVal_pos_of_sgn ha hsa
    have h2 : scoreVal b = 0 := scoreVal_zero_of_sgn hsb
    have hbool : scoreVal_lt a b = false := by
      unfold scoreVal_lt
      rw [hsa, hsb]
      norm_num
    rw [hbool, h2]
    simp [not_lt.mpr h1.le]
  · -- both positive: compare via squares
    obtain ⟨hda, hna⟩ := sgn_cases_pos hsa
    obtain ⟨hdb, hnb⟩ := sgn_cases_pos hsb
    have hda' : (0 : ℝ) < (a.den2 : ℝ) := by
      have : 0 < a.den2 := lt_of_le_of_ne ha (Ne.symm hda)
      exact_mod_cast this
    have hdb' : (0 : ℝ) < (b.den2 : ℝ) := by
      have : 0 < b.den2 := lt_of_le_of_ne hb (Ne.symm hdb)
      exact_mod_cast this
    have hval : scoreVal a < scoreVal b ↔
        (a.num : ℝ) * (a.num : ℝ) * (b.den2 : ℝ) <
        (b.num : ℝ) * (b.num : ℝ) * (a.den2 : ℝ) := by
      unfold scoreVal
      exact div_sqrt_lt_pos (by exact_mod_cast hna) (by exact_mod_cast hnb) hda' hdb'
    have hbool : scoreVal_lt a b =
        decide (a.num * a.num * b.den2 < b.num * b.num * a.den2) := by
      unfold scoreVal_lt
      rw [hsa, hsb]
      norm_num
    rw [hbool, hval, decide_eq_true_iff]
    exact_mod_cast Iff.rfl

/-! ## Nonnegativity of score denominators -/

theorem two_mul_sum_le (x : ℤ) :
    ∀ l : List ℤ, 2 * x * l.sum ≤ (l.length : ℤ) * (x * x) + (l.map (fun t => t * t)).sum
  | [] => by simp
  | t :: l => by
    have ih := two_mul_sum_le x l
    have h1 : 2 * x * t ≤ x * x + t * t := by nlinarith [sq_nonneg (x - t)]
    simp only [List.sum_cons, List.map_cons, List.length_cons]
    push_cast
    nlinarith [ih, h1]

theorem sq_sum_le (l : List ℤ) :
    l.sum * l.sum ≤ (l.length : ℤ) * (l.map (fun t => t * t)).sum := by
  induction l with
  | nil => simp
  | cons t l ih =>
    have h2 := two_mul_sum_le t l
    simp only [List.sum_cons, List.map_cons, List.length_cons]
    push_cast
    nlinarith [ih, h2]

theorem sum_map_const {l : List α} {f : α → ℕ} {c : ℕ} (h : ∀ x ∈ l, f x = c) :
    (l.map f).sum = l.length * c := by
  induction l with
  | nil => simp
  | cons x l ih =>
    simp only [List.map_cons, List.sum_cons, List.length_cons]
    rw [h x (List.mem_cons_self x l), ih (fun y hy => h y (List.mem_cons_of_mem x hy))]
    ring

theorem gridVals_length {g : GrayImage} {h w : ℕ} (hr : rectangular g h w) :
    (gridVals g).length = h * w := by
  obtain ⟨h1, h2⟩ := hr
  simp only [gridVals, List.length_map, List.length_flatten]
  rw [sum_map_const h2, h1]

theorem subgrid_rect {g : GrayImage} {hi wi y ht x wt : ℕ}
    (hr : rectangular g hi wi) (hy : y + ht ≤ hi) (hx : x + wt ≤ wi) :
    rectangular (subgrid g y ht x wt) ht wt := by
  obtain ⟨h1, h2⟩ := hr
  constructor
  · simp only [subgrid, List.length_map, List.length_take, List.length_drop, h1]
    omega
  · intro r hrm
    simp only [subgrid, List.mem_map] at hrm
    obtain ⟨r0, hr0, rfl⟩ := hrm
    have hmem : r0 ∈ g := List.mem_of_mem_drop (List.mem_of_mem_take hr0)
    have hl : r0.length = wi := h2 r0 hmem
    simp only [List.length_take, List.length_drop, hl]
    omega

theorem ccoeff_den2_nonneg {image templ : GrayImage} {hi wi ht wt : ℕ} (x y : ℕ)
    (hri : rectangular image hi wi) (hrt : rectangular templ ht wt)
    (h1 : 0 < ht) (hy : y + ht ≤ hi) (hx : x + wt ≤ wi) :
    0 ≤ (ccoeffNormedScore image templ x y).den2 := by
  have e1 : rowsOf templ = ht := hrt.1
  have e2 : colsOf templ = wt := rect_cols h1 hrt
  have hsub : rectangular (subgrid image y (rowsOf templ) x (colsOf templ)) ht wt := by
    rw [e1, e2]
    exact subgrid_rect hri hy hx
  have hlt : (gridVals templ).length = ht * wt := gridVals_length hrt
  have hlw : (gridVals (subgrid image y (rowsOf templ) x (colsOf templ))).length = ht * wt :=
    gridVals_length hsub
  unfold ccoeffNormedScore
  have ha := sq_sum_le (gridVals templ)
  have hb := sq_sum_le (gridVals (subgrid image y (rowsOf templ) x (colsOf templ)))
  rw [hlt] at ha
  rw [hlw] at hb
  have hA : 0 ≤ ((gridVals templ).length : ℤ) *
      ((gridVals templ).map (fun t => t * t)).sum -
      (gridVals templ).sum * (gridVals templ).sum := by
    rw [hlt]; omega
  have hB : 0 ≤ ((gridVals templ).length : ℤ) *
      ((gridVals (subgrid image y (rowsOf templ) x (colsOf templ))).map (fun w => w * w)).sum -
      (gridVals (subgrid image y (rowsOf templ) x (colsOf templ))).sum *
      (gridVals (subgrid image y (rowsOf templ) x (colsOf templ))).sum := by
    rw [hlt]; omega
  exact mul_nonneg hA hB

/-! ## The scan-order characterisation of `minMaxLocMax` -/

theorem mem_indexRow {y : ℕ} : ∀ {x0 : ℕ} {r : List Score} {y' x' : ℕ} {s : Score},
    ((y', x'), s) ∈ indexRow y x0 r ↔ y' = y ∧ x0 ≤ x' ∧ r.get? (x' - x0) = some s := by
  intro x0 r
  induction r generalizing x0 with
  | nil =>
    intro y' x' s
    simp [indexRow]
  | cons s0 rest ih =>
    intro y' x' s
    simp only [indexRow, List.mem_cons, ih]
    constructor
    · rintro (heq | ⟨h1, h2, h3⟩)
      · injection heq with hq hs
        injection hq with hy hx
        subst hy
        subst hx
        subst hs
        exact ⟨rfl, le_refl _, by rw [Nat.sub_self]; rfl⟩
      · refine ⟨h1, by omega, ?_⟩
        have hx : x' - x0 = (x' - (x0 + 1)) + 1 := by omega
        rw [hx]
        simpa using h3
    · rintro ⟨h1, h2, h3⟩
      rcases Nat.eq_or_lt_of_le h2 with he | hlt
      · left
        rw [← he, Nat.sub_self] at h3
        simp only [List.get?_cons_zero, Option.some.injEq] at h3
        rw [h1, ← he, ← h3]
      · right
        refine ⟨h1, by omega, ?_⟩
        have hx : x' - x0 = (x' - (x0 + 1)) + 1 := by omega
        rw [hx] at h3
        simpa using h3

theorem mem_indexedCellsFrom : ∀ {y0 : ℕ} {g : List (List Score)} {y' x' : ℕ} {s : Score},
    ((y', x'), s) ∈ indexedCellsFrom y0 g ↔
      y0 ≤ y' ∧ ∃ row, g.get? (y' - y0) = some row ∧ row.get? x' = some s := by
  intro y0 g
  induction g generalizing y0 with
  | nil =>
    intro y' x' s
    simp [indexedCellsFrom]
  | cons r rest ih =>
    intro y' x' s
    simp only [indexedCellsFrom, List.mem_append, mem_indexRow, ih]
    constructor
    · rintro (⟨h1, h2, h3⟩ | ⟨h1, row, h2, h3⟩)
      · subst h1
        exact ⟨le_refl _, r, by rw [Nat.sub_self]; rfl, by simpa using h3⟩
      · refine ⟨by omega, row, ?_, h3⟩
        have hx : y' - y0 = (y' - (y0 + 1)) + 1 := by omega
        rw [hx]
        simpa using h2
    · rintro ⟨h1, row, h2, h3⟩
      rcases Nat.eq_or_lt_of_le h1 with he | hlt
      · left
        rw [← he, Nat.sub_self] at h2
        simp only [List.get?_cons_zero, Option.some.injEq] at h2
        subst h2
        exact ⟨he.symm, by omega, by simpa using h3⟩
      · right
        refine ⟨hlt, row, ?_, h3⟩
        have hx : y' - y0 = (y' - (y0 + 1)) + 1 := by omega
        rw [hx] at h2
        simpa using h2

theorem mem_indexedCells {grid : List (List Score)} {y x : ℕ} {s : Score} :
    ((y, x), s) ∈ indexedCells grid ↔ cellAt grid y x = some s := by
  rw [indexedCells, mem_indexedCellsFrom]
  constructor
  · rintro ⟨-, row, h2, h3⟩
    rw [cellAt]
    rw [Nat.sub_zero] at h2
    rw [h2]
    simpa using h3
  · intro h
    rw [cellAt] at h
    cases hrow : grid.get? y with
    | none => rw [hrow] at h; simp at h
    | some row =>
      rw [hrow] at h
      exact ⟨Nat.zero_le _, row, by simpa using hrow, h⟩

theorem indexRow_fst {y x0 : ℕ} {r : List Score} {p : (ℕ × ℕ) × Score}
    (h : p ∈ indexRow y x0 r) : p.1.1 = y ∧ x0 ≤ p.1.2 := by
  obtain ⟨⟨y', x'⟩, s⟩ := p
  rw [mem_indexRow] at h
  exact ⟨h.1, h.2.1⟩

theorem indexedCellsFrom_fst {y0 : ℕ} {g : List (List Score)} {p : (ℕ × ℕ) × Score}
    (h : p ∈ indexedCellsFrom y0 g) : y0 ≤ p.1.1 := by
  obtain ⟨⟨y', x'⟩, s⟩ := p
  rw [mem_indexedCellsFrom] at h
  exact h.1

theorem pairwise_indexRow {y : ℕ} : ∀ {x0 : ℕ} {r : List Score},
    List.Pairwise (fun p q => scanBefore p.1 q.1) (indexRow y x0 r) := by
  intro x0 r
  induction r generalizing x0 with
  | nil => exact List.Pairwise.nil
  | cons s rest ih =>
    simp only [indexRow]
    refine List.Pairwise.cons ?_ ih
    intro q hq
    obtain ⟨h1, h2⟩ := indexRow_fst hq
    unfold scanBefore
    right
    refine ⟨h1.symm, ?_⟩
    show x0 < q.1.2
    omega

theorem pairwise_indexedCellsFrom : ∀ {y0 : ℕ} {g : List (List Score)},
    List.Pairwise (fun p q => scanBefore p.1 q.1) (indexedCellsFrom y0 g) := by
  intro y0 g
  induction g generalizing y0 with
  | nil => exact List.Pairwise.nil
  | cons r rest ih =>
    simp only [indexedCellsFrom]
    rw [List.pairwise_append]
    refine ⟨pairwise_indexRow, ih, ?_⟩
    intro p hp q hq
    obtain ⟨h1, -⟩ := indexRow_fst hp
    have h2 := indexedCellsFrom_fst hq
    unfold scanBefore
    left
    omega

theorem foldl_best_spec (l : List ((ℕ × ℕ) × Score)) :
    ∀ (c : (ℕ × ℕ) × Score), (∀ d ∈ c :: l, 0 ≤ d.2.den2) →
    ∃ l1 l2,
      c :: l = l1 ++ (l.foldl (fun b d => if scoreVal_lt b.2 d.2 then d else b) c) :: l2 ∧
      (∀ d ∈ c :: l, scoreVal d.2 ≤
        scoreVal (l.foldl (fun b d => if scoreVal_lt b.2 d.2 then d else b) c).2) ∧
      (∀ d ∈ l1, scoreVal d.2 <
        scoreVal (l.foldl (fun b d => if scoreVal_lt b.2 d.2 then d else b) c).2) := by
  induction l with
  | nil =>
    intro c hden
    refine ⟨[], [], rfl, ?_, by simp⟩
    intro d hd
    simp only [List.foldl_nil]
    rw [List.mem_singleton] at hd
    rw [hd]
  | cons d t ih =>
    intro c hden
    simp only [List.foldl_cons]
    have hc0 : 0 ≤ c.2.den2 := hden c (List.mem_cons_self _ _)
    have hd0 : 0 ≤ d.2.den2 :=
      hden d (List.mem_cons_of_mem _ (List.mem_cons_self _ _))
    by_cases hlt : scoreVal_lt c.2 d.2 = true
    · rw [if_pos hlt]
      have hcd : scoreVal c.2 < scoreVal d.2 := (scoreVal_lt_iff hc0 hd0).mp hlt
      have hden' : ∀ e ∈ d :: t, 0 ≤ e.2.den2 :=
        fun e he => hden e (List.mem_cons_of_mem _ he)
      obtain ⟨l1, l2, hsplit, hmax, hstrict⟩ := ih d hden'
      have hdb : scoreVal d.2 ≤
          scoreVal (t.foldl (fun b d => if scoreVal_lt b.2 d.2 then d else b) d).2 :=
        hmax d (List.mem_cons_self _ _)
      refine ⟨c :: l1, l2, ?_, ?_, ?_⟩
      · rw [List.cons_append, ← hsplit]
      · intro e he
        rcases List.mem_cons.mp he with rfl | he'
        · exact le_of_lt (lt_of_lt_of_le hcd hdb)
        · exact hmax e he'
      · intro e he
        rcases List.mem_cons.mp he with rfl | he'
        · exact lt_of_lt_of_le hcd hdb
        · exact hstrict e he'
    · rw [if_neg hlt]
      have hdc : scoreVal d.2 ≤ scoreVal c.2 :=
        not_lt.mp (fun hcon => hlt ((scoreVal_lt_iff hc0 hd0).mpr hcon))
      have hden' : ∀ e ∈ c :: t, 0 ≤ e.2.den2 := by
        intro e he
        rcases List.mem_cons.mp he with rfl | he'
        · exact hc0
        · exact hden e (List.mem_cons_of_mem _ (List.mem_cons_of_mem _ he'))
      obtain ⟨l1, l2, hsplit, hmax, hstrict⟩ := ih c hden'
      have hcb : scoreVal c.2 ≤
          scoreVal (t.foldl (fun b d => if scoreVal_lt b.2 d.2 then d else b) c).2 :=
        hmax c (List.mem_cons_self _ _)
      cases l1 with
      | nil =>
        simp only [List.nil_append] at hsplit
        injection hsplit with h1 h2
        refine ⟨[], d :: l2, ?_, ?_, by simp⟩
        · rw [List.nil_append, ← h1, h2]
        · intro e he
          rcases List.mem_cons.mp he with rfl | he'
          · rw [← h1]
          · rcases List.mem_cons.mp he' with rfl | he''
            · rw [← h1]; exact hdc
            · exact hmax e (List.mem_cons_of_mem _ (h2 ▸ he''))
      | cons e0 l1' =>
        rw [List.cons_append] at hsplit
        injection hsplit with h1 h2
        have hcl1 : scoreVal c.2 <
            scoreVal (t.foldl (fun b d => if scoreVal_lt b.2 d.2 then d else b) c).2 := by
          apply hstrict
          rw [← h1]
          exact List.mem_cons_self _ _
        refine ⟨c :: d :: l1', l2, ?_, ?_, ?_⟩
        · rw [List.cons_append, List.cons_append, ← h2]
        · intro q hq
          rcases List.mem_cons.mp hq with rfl | hq'
          · exact hcb
          · rcases List.mem_cons.mp hq' with rfl | hq''
            · exact le_trans hdc hcb
            · exact hmax q (List.mem_cons_of_mem _ (h2 ▸ hq''))
        · intro q hq
          rcases List.mem_cons.mp hq with rfl | hq'
          · exact hcl1
          · rcases List.mem_cons.mp hq' with rfl | hq''
            · exact lt_of_le_of_lt hdc hcl1
            · apply hstrict
              rw [← h1]
              exact List.mem_cons_of_mem _ hq''

/-- `cv2.minMaxLoc`'s max location is the first maximum of the grid in
row-major scan order. -/
theorem minMaxLocMax_isFirstMax {grid : List (List Score)}
    (hne : indexedCells grid ≠ [])
    (hden : ∀ p ∈ indexedCells grid, 0 ≤ p.2.den2) :
    isFirstMax grid ((minMaxLocMax grid).2, (minMaxLocMax grid).1) := by
  cases hcells : indexedCells grid with
  | nil => exact absurd hcells hne
  | cons c cs =>
    have hden' : ∀ d ∈ c :: cs, 0 ≤ d.2.den2 := by
      rw [← hcells]
      exact hden
    obtain ⟨l1, l2, hsplit, hmax, hstrict⟩ := foldl_best_spec cs c hden'
    set b := cs.foldl (fun b d => if scoreVal_lt b.2 d.2 then d else b) c with hbdef
    have hloc : minMaxLocMax grid = (b.1.2, b.1.1) := by
      simp only [minMaxLocMax, hcells]
    rw [hloc]
    show isFirstMax grid (b.1.1, b.1.2)
    have hbmem : b ∈ indexedCells grid := by
      rw [hcells, hsplit]
      exact List.mem_append.mpr (Or.inr (List.mem_cons_self _ _))
    refine ⟨b.2, ?_, ?_, ?_⟩
    · exact mem_indexedCells.mp hbmem
    · intro y x s' h
      have hq : ((y, x), s') ∈ c :: cs := by
        rw [← hcells]
        exact mem_indexedCells.mpr h
      exact hmax _ hq
    · intro y x s' h hscan
      have hq : ((y, x), s') ∈ c :: cs := by
        rw [← hcells]
        exact mem_indexedCells.mpr h
      rw [hsplit] at hq
      rcases List.mem_append.mp hq with hq1 | hq2
      · exact hstrict _ hq1
      · exfalso
        rcases List.mem_cons.mp hq2 with heq | hq3
        · have h1 : y = b.1.1 := by rw [← heq]
          have h2 : x = b.1.2 := by rw [← heq]
          rw [← h1, ← h2] at hscan
          simp [scanBefore] at hscan
        · have hpw : List.Pairwise (fun p q => scanBefore p.1 q.1) (indexedCells grid) :=
            pairwise_indexedCellsFrom
          rw [hcells, hsplit] at hpw
          obtain ⟨-, hp2, -⟩ := List.pairwise_append.mp hpw
          rw [List.pairwise_cons] at hp2
          have hforward := hp2.1 _ hq3
          simp only [scanBefore] at hforward hscan
          omega

theorem length_pySlice_nat {xs : List α} {i n : ℕ} (h : i + n ≤ xs.length) :
    (pySlice xs (i : ℤ) ((i : ℤ) + n)).length = n := by
  unfold pySlice pyIdx
  have h0 : ¬((i : ℤ) < 0) := by omega
  have h1 : ¬((i : ℤ) + n < 0) := by omega
  have e1 : (i : ℤ).toNat = i := by omega
  have e2 : ((i : ℤ) + n).toNat = i + n := by omega
  simp only [if_neg h0, if_neg h1, e1, e2]
  simp only [List.length_take, List.length_drop]
  omega

theorem mem_pySlice {xs : List α} {a b : ℤ} {r : α} (h : r ∈ pySlice xs a b) :
    r ∈ xs := by
  unfold pySlice at h
  exact List.mem_of_mem_drop (List.mem_of_mem_take h)

theorem sliceRC_rect {img : List (List α)} {hi wi y x h w : ℕ}
    (hr : rectangular img hi wi) (hy : y + h ≤ hi) (hx : x + w ≤ wi) :
    rectangular (sliceRC img (y : ℤ) ((y : ℤ) + h) (x : ℤ) ((x : ℤ) + w)) h w := by
  obtain ⟨h1, h2⟩ := hr
  constructor
  · rw [sliceRC, List.length_map]
    exact length_pySlice_nat (by omega)
  · intro r hrm
    rw [sliceRC, List.mem_map] at hrm
    obtain ⟨r0, hr0, rfl⟩ := hrm
    have hmem : r0 ∈ img := mem_pySlice hr0
    have hl : r0.length = wi := h2 r0 hmem
    exact length_pySlice_nat (by omega)

/-- C3: (universal part) for a `h × w` before image and a
`(h+2d) × (w+2d)` after image, `align_after_image` returns the `h × w`,
3-channel crop of the after image at the offset `(x, y)` where the
normalized-cross-correlation result grid attains its maximum, first maximum
in row-major scan order on ties (`isFirstMax`); (concrete part) the after
image `cexA3` embeds the before image `cexBefore2`'s content at the
non-trivial offset `(dx, dy) = (1, 1)` (with `d = 1`), and `align` recovers
exactly the original before-image content. -/
theorem C3_align_ncc_argmax :
    (∀ (b a : RGBImage) (h w d : ℕ),
      rectangular b h w → rectangular a (h + 2 * d) (w + 2 * d) →
      0 < h → 0 < w →
      ∃ grid y x,
        matchTemplate (_to_grayscale a) (_to_grayscale b) = some grid ∧
        minMaxLocMax grid = (x, y) ∧
        isFirstMax grid (y, x) ∧
        align_after_image b a =
          some (sliceRC a (y : ℤ) ((y : ℤ) + h) (x : ℤ) ((x : ℤ) + w)) ∧
        rectangular (sliceRC a (y : ℤ) ((y : ℤ) + h) (x : ℤ) ((x : ℤ) + w)) h w) ∧
    (sliceRC cexA3 1 3 1 3 = cexBefore2 ∧
     align_after_image cexBefore2 cexA3 = some cexBefore2 ∧
     ((1, 1) : ℕ × ℕ) ≠ (0, 0)) := by
  constructor
  · intro b a h w d hrb hra hh hw
    have hga : rectangular (_to_grayscale a) (h + 2 * d) (w + 2 * d) := rect_gray hra
    have hgb : rectangular (_to_grayscale b) h w := rect_gray hrb
    have hmt := matchTemplate_eq_grid hga hgb hh hw (by omega) (by omega)
    have hR : h + 2 * d - h + 1 = 2 * d + 1 := by omega
    have hC : w + 2 * d - w + 1 = 2 * d + 1 := by omega
    rw [hR, hC] at hmt
    set grid := (List.range (2 * d + 1)).map (fun y =>
      (List.range (2 * d + 1)).map (fun x =>
        ccoeffNormedScore (_to_grayscale a) (_to_grayscale b) x y)) with hgrid
    -- inversion of a cell of the grid
    have hcell : ∀ y x s, cellAt grid y x = some s →
        y ≤ 2 * d ∧ x ≤ 2 * d ∧
        s = ccoeffNormedScore (_to_grayscale a) (_to_grayscale b) x y := by
      intro y x s hc
      rw [cellAt, hgrid, List.get?_map] at hc
      by_cases hylt : y < 2 * d + 1
      · rw [List.get?_range hylt] at hc
        simp only [Option.map_some', Option.some_bind] at hc
        rw [List.get?_map] at hc
        by_cases hxlt : x < 2 * d + 1
        · rw [List.get?_range hxlt] at hc
          simp only [Option.map_some', Option.some.injEq] at hc
          exact ⟨by omega, by omega, hc.symm⟩
        · rw [List.get?_eq_none.mpr (by simpa using not_lt.mp hxlt)] at hc
          simp at hc
      · rw [List.get?_eq_none.mpr (by simpa using not_lt.mp hylt)] at hc
        simp at hc
    -- the grid has a first cell
    have hne : indexedCells grid ≠ [] := by
      have hmem : ((0, 0),
          ccoeffNormedScore (_to_grayscale a) (_to_grayscale b) 0 0) ∈
          indexedCells grid := by
        rw [mem_indexedCells, cellAt, hgrid, List.get?_map,
          List.get?_range (by omega : 0 < 2 * d + 1)]
        simp only [Option.map_some', Option.some_bind]
        rw [List.get?_map, List.get?_range (by omega : 0 < 2 * d + 1)]
        rfl
      exact List.ne_nil_of_mem hmem
    -- all denominators are nonnegative
    have hden : ∀ p ∈ indexedCells grid, 0 ≤ p.2.den2 := by
      intro p hp
      obtain ⟨⟨y, x⟩, s⟩ := p
      have hc := mem_indexedCells.mp hp
      obtain ⟨hy, hx, rfl⟩ := hcell y x s hc
      exact ccoeff_den2_nonneg x y hga hgb hh (by omega) (by omega)
    have hfm := minMaxLocMax_isFirstMax hne hden
    refine ⟨grid, (minMaxLocMax grid).2, (minMaxLocMax grid).1, hmt, rfl, hfm, ?_, ?_⟩
    · rw [align_after_image, hmt]
      simp only [Option.map_some']
      have hrows : rowsOf b = h := hrb.1
      have hcols : colsOf b = w := rect_cols hh hrb
      rw [hrows, hcols]
    · -- the returned crop is an h × w rectangle
      obtain ⟨s, hc, -, -⟩ := hfm
      obtain ⟨hy, hx, -⟩ := hcell _ _ _ hc
      exact sliceRC_rect hra (by omega) (by omega)
  · refine ⟨by decide, by decide, by decide⟩

/-- Witness for the universal part of `C3_align_ncc_argmax` at the concrete
embedded-offset instance (`h = w = 2`, `d = 1`). -/
theorem C3_align_ncc_argmax_witness :
    ∃ grid y x,
      matchTemplate (_to_grayscale cexA3) (_to_grayscale cexBefore2) = some grid ∧
      minMaxLocMax grid = (x, y) ∧
      isFirstMax grid (y, x) ∧
      align_after_image cexBefore2 cexA3 =
        some (sliceRC cexA3 (y : ℤ) ((y : ℤ) + 2) (x : ℤ) ((x : ℤ) + 2)) ∧
      rectangular (sliceRC cexA3 (y : ℤ) ((y : ℤ) + 2) (x : ℤ) ((x : ℤ) + 2)) 2 2 :=
  C3_align_ncc_argmax.1 cexBefore2 cexA3 2 2 1 (by decide) (by decide)
    (by decide) (by decide)

/-! ## Assembly-engine lemmas -/

theorem dictGet_cons (kv : String × α) (m : List (String × α)) (k : String) :
    dictGet (kv :: m) k = if kv.1 == k then some kv.2 else dictGet m k := by
  cases h : kv.1 == k <;> simp [dictGet, List.find?, h]

theorem assemble_example_id {ec eid bid aid : String} {bl bc al ac : RGBImage}
    {sf : ScalarMap} :
    dictGet (assembleExample ec eid bl bc bid al ac aid sf) "example_id" =
      some (Feature.bytes_list (BytesValue.str eid)) := by
  simp [assembleExample, dictGet_cons]

theorem assemble_pre_id {ec eid bid aid : String} {bl bc al ac : RGBImage}
    {sf : ScalarMap} :
    dictGet (assembleExample ec eid bl bc bid al ac aid sf) "pre_image_id" =
      some (Feature.bytes_list (BytesValue.str bid)) := by
  simp [assembleExample, dictGet_cons]

theorem assemble_pre_large {ec eid bid aid : String} {bl bc al ac : RGBImage}
    {sf : ScalarMap} :
    dictGet (assembleExample ec eid bl bc bid al ac aid sf) "pre_image_png_large" =
      some (Feature.bytes_list (BytesValue.png bl)) := by
  simp [assembleExample, dictGet_cons]

theorem assemble_pre_png {ec eid bid aid : String} {bl bc al ac : RGBImage}
    {sf : ScalarMap} :
    dictGet (assembleExample ec eid bl bc bid al ac aid sf) "pre_image_png" =
      some (Feature.bytes_list (BytesValue.png bc)) := by
  simp [assembleExample, dictGet_cons]

theorem assemble_post_large {ec eid bid aid : String} {bl bc al ac : RGBImage}
    {sf : ScalarMap} :
    dictGet (assembleExample ec eid bl bc bid al ac aid sf) "post_image_png_large" =
      some (Feature.bytes_list (BytesValue.png al)) := by
  simp [assembleExample, dictGet_cons]

/-- Inversion of a non-raising `_create_example` call: the counter deltas are
the per-pair increments of the source, and a rejected pair bumps `rejected`
together with exactly one direction-specific blank counter (never the
before-direction one when before-imagery is off). -/
theorem create_example_counters {u : Bool} {p : ℕ} {ec bid aid : String}
    {bimg aimg : RGBImage} {sf : ScalarMap} {eo : Option TfExample} {dc : Counters}
    (h : _create_example u p ec bid bimg aid aimg sf = .ok (eo, dc)) :
    ((∃ e, eo = some e) ∧ dc = Counters.zero) ∨
    (eo = none ∧ (dc = ⟨0, 1, 1, 0⟩ ∨ dc = ⟨0, 1, 0, 1⟩)) ∧
    (u = false → dc = ⟨0, 1, 0, 1⟩) := by
  rw [_create_example] at h
  split at h
  · simp at h
  · dsimp only at h
    split_ifs at h with h1 h2
    · injection h with h'
      injection h' with he hc
      exact Or.inr ⟨⟨he.symm, Or.inl hc.symm⟩, fun hu => by rw [hu] at h1; simp at h1⟩
    · injection h with h'
      injection h' with he hc
      exact Or.inr ⟨⟨he.symm, Or.inr hc.symm⟩, fun _ => hc.symm⟩
    · split at h
      · injection h with h'
        injection h' with he hc
        exact Or.inl ⟨⟨_, he.symm⟩, hc.symm⟩
      · simp at h

/-- Inversion of a successful `_create_example` call: the produced example
is `assembleExample` applied to the (possibly aligned) images, their center
crops, the ids, and the id digest of exactly
`(longitude, latitude, before_image_id, after_image_id)`. -/
theorem create_example_success {u : Bool} {p : ℕ} {ec bid aid : String}
    {bimg aimg : RGBImage} {sf : ScalarMap} {e : TfExample} {dc : Counters}
    (h : _create_example u p ec bid bimg aid aimg sf = .ok (some e, dc)) :
    ∃ aI lon lat,
      (if u then align_after_image bimg aimg else some aimg) = some aI ∧
      dictGet sf "coordinates" = some [lon, lat] ∧
      dc = Counters.zero ∧
      e = assembleExample ec (_make_example_id lon lat bid aid)
            bimg (_center_crop bimg p) bid
            aI (_center_crop aI p) aid sf := by
  rw [_create_example] at h
  split at h
  · simp at h
  · rename_i aI haI
    dsimp only at h
    split_ifs at h with h1 h2
    · simp at h
    · simp at h
    · split at h
      · rename_i lon lat hco
        injection h with h'
        injection h' with he hc
        injection he with he'
        exact ⟨aI, lon, lat, haI, hco, hc.symm, he'.symm⟩
      · simp at h

theorem Counters.add_zero_right (c : Counters) : c.add Counters.zero = c := by
  obtain ⟨g, r, bb, ab⟩ := c
  simp [Counters.add, Counters.zero]

theorem Counters.zero_add_left (c : Counters) : Counters.zero.add c = c := by
  obtain ⟨g, r, bb, ab⟩ := c
  simp [Counters.add, Counters.zero]

theorem Counters.add_assoc (a b c : Counters) :
    (a.add b).add c = a.add (b.add c) := by
  obtain ⟨g1, r1, b1, a1⟩ := a
  obtain ⟨g2, r2, b2, a2⟩ := b
  obtain ⟨g3, r3, b3, a3⟩ := c
  simp [Counters.add]
  omega

theorem mem_pairs {l1 : List β} {l2 : List γ} {pr : β × γ} :
    pr ∈ l1.flatMap (fun b => l2.map (fun a => (b, a))) ↔
      pr.1 ∈ l1 ∧ pr.2 ∈ l2 := by
  obtain ⟨b0, a0⟩ := pr
  simp only [List.mem_flatMap, List.mem_map]
  constructor
  · rintro ⟨b, hb, a, ha, heq⟩
    injection heq with h1 h2
    rw [← h1, ← h2]
    exact ⟨hb, ha⟩
  · rintro ⟨hb, ha⟩
    exact ⟨b0, hb, a0, ha, rfl⟩

theorem length_pairs (l1 : List β) (l2 : List γ) :
    (l1.flatMap (fun b => l2.map (fun a => (b, a)))).length =
      l1.length * l2.length := by
  rw [List.length_flatMap]
  exact sum_map_const (by intro b _; simp)

/-- The emission loop when every pair builds an example: the loop appends the
per-pair outputs in before-major cross-product order and adds one
`generated` increment per pair. -/
theorem emitPairs_all_ok {u : Bool} {p : ℕ} {ec : String} {sf : ScalarMap}
    (f : (String × RGBImage) × (String × RGBImage) → TfExample) :
    ∀ (l : List ((String × RGBImage) × (String × RGBImage)))
      (out : List TfExample) (c : Counters),
    (∀ pr ∈ l, _create_example u p ec pr.1.1 pr.1.2 pr.2.1 pr.2.2 sf =
      .ok (some (f pr), Counters.zero)) →
    emitPairs u p ec sf l (out, c) =
      .ok (out ++ l.map f, c.add ⟨l.length, 0, 0, 0⟩) := by
  intro l
  induction l with
  | nil =>
    intro out c _
    simp only [emitPairs, List.map_nil, List.append_nil, List.length_nil]
    rw [show (⟨0, 0, 0, 0⟩ : Counters) = Counters.zero from rfl, Counters.add_zero_right]
  | cons pr rest ih =>
    intro out c hall
    obtain ⟨b, a⟩ := pr
    rw [emitPairs, hall (b, a) (List.mem_cons_self _ _)]
    dsimp only
    rw [ih (out ++ [f (b, a)]) ((c.add Counters.zero).add ⟨1, 0, 0, 0⟩)
      (fun q hq => hall q (List.mem_cons_of_mem _ hq))]
    rw [Counters.add_zero_right, List.append_assoc, Counters.add_assoc]
    simp only [List.map_cons, List.singleton_append, List.length_cons]
    rw [show (Counters.add ⟨1, 0, 0, 0⟩ ⟨rest.length, 0, 0, 0⟩ : Counters) =
      ⟨rest.length + 1, 0, 0, 0⟩ from by simp [Counters.add]; omega]

/-- Counter bookkeeping of the emission loop: every processed pair adds
exactly one to either `generated` or `rejected`; `rejected` always moves in
lock-step with the sum of the two blank counters; with before-imagery off
the before-blank counter never moves. -/
theorem emitPairs_counters {u : Bool} {p : ℕ} {ec : String} {sf : ScalarMap} :
    ∀ (l : List ((String × RGBImage) × (String × RGBImage)))
      (out : List TfExample) (c : Counters) (out' : List TfExample) (c' : Counters),
    emitPairs u p ec sf l (out, c) = .ok (out', c') →
    ∃ dg dr db da,
      c' = c.add ⟨dg, dr, db, da⟩ ∧ dr = db + da ∧ dg + dr = l.length ∧
      out'.length = out.length + dg ∧ (u = false → db = 0) := by
  intro l
  induction l with
  | nil =>
    intro out c out' c' h
    simp only [emitPairs] at h
    injection h with h'
    injection h' with ho hc
    refine ⟨0, 0, 0, 0, ?_, rfl, rfl, ?_, fun _ => rfl⟩
    · rw [← hc, show (⟨0,0,0,0⟩ : Counters) = Counters.zero from rfl,
        Counters.add_zero_right]
    · rw [← ho]
      omega
  | cons pr rest ih =>
    intro out c out' c' h
    obtain ⟨b, a⟩ := pr
    rw [emitPairs] at h
    split at h
    · simp at h
    · rename_i ex dc hres
      obtain ⟨dg, dr, db, da, h1, h2, h3, h4, h5⟩ := ih _ _ _ _ h
      rcases create_example_counters hres with ⟨-, hdc⟩ | ⟨⟨he, -⟩, -⟩
      · refine ⟨dg + 1, dr, db, da, ?_, h2,
          by simp only [List.length_cons]; omega,
          by simp only [List.length_append, List.length_singleton] at h4; omega, h5⟩
        rw [h1, hdc, Counters.add_zero_right, Counters.add_assoc]
        obtain ⟨g0, r0, b0, a0⟩ := c
        simp [Counters.add]
        omega
      · simp at he
    · rename_i dc hres
      obtain ⟨dg, dr, db, da, h1, h2, h3, h4, h5⟩ := ih _ _ _ _ h
      rcases create_example_counters hres with ⟨⟨e, he⟩, -⟩ | ⟨⟨-, hdc⟩, hu⟩
      · simp at he
      · rcases hdc with hdc | hdc
        · refine ⟨dg, dr + 1, db + 1, da, ?_, by omega,
            by simp only [List.length_cons]; omega, h4, ?_⟩
          · rw [h1, hdc, Counters.add_assoc]
            obtain ⟨g0, r0, b0, a0⟩ := c
            simp [Counters.add]
            omega
          · intro hu0
            rw [hu hu0] at hdc
            injection hdc with e1 e2 e3 e4
            omega
        · refine ⟨dg, dr + 1, db, da + 1, ?_, by omega,
            by simp only [List.length_cons]; omega, h4, h5⟩
          rw [h1, hdc, Counters.add_assoc]
          obtain ⟨g0, r0, b0, a0⟩ := c
          simp [Counters.add]
          omega

/-- Every example in the emission loop's output that is not already in the
accumulator was built by `_create_example` on some pair of the worklist. -/
theorem emitPairs_mem {u : Bool} {p : ℕ} {ec : String} {sf : ScalarMap} :
    ∀ (l : List ((String × RGBImage) × (String × RGBImage)))
      (out : List TfExample) (c : Counters) (out' : List TfExample) (c' : Counters),
    emitPairs u p ec sf l (out, c) = .ok (out', c') →
    ∀ e ∈ out', e ∈ out ∨ ∃ pr ∈ l, ∃ dc,
      _create_example u p ec pr.1.1 pr.1.2 pr.2.1 pr.2.2 sf = .ok (some e, dc) := by
  intro l
  induction l with
  | nil =>
    intro out c out' c' h e he
    simp only [emitPairs] at h
    injection h with h'
    injection h' with ho _
    rw [← ho] at he
    exact Or.inl he
  | cons pr rest ih =>
    intro out c out' c' h e he
    obtain ⟨b, a⟩ := pr
    rw [emitPairs] at h
    split at h
    · simp at h
    · rename_i ex dc hres
      rcases ih _ _ _ _ h e he with hin | ⟨q, hq, dc', hq'⟩
      · rcases List.mem_append.mp hin with hin' | hin'
        · exact Or.inl hin'
        · rw [List.mem_singleton] at hin'
          rw [hin']
          exact Or.inr ⟨(b, a), List.mem_cons_self _ _, dc, hres⟩
      · exact Or.inr ⟨q, List.mem_cons_of_mem _ hq, dc', hq'⟩
    · rename_i dc hres
      rcases ih _ _ _ _ h e he with hin | ⟨q, hq, dc', hq'⟩
      · exact Or.inl hin
      · exact Or.inr ⟨q, List.mem_cons_of_mem _ hq, dc', hq'⟩

/-! ## Claim theorems -/

/-- The integer comparison in the `_mostly_blank` model is exactly the
source's `(size - num_non_blank) / size >= 0.25` for a nonempty reduction
(`L` the reduced size, `n` the non-blank count). -/
theorem mostly_blank_frac {L n : ℕ} (hL : 0 < L) (hn : n ≤ L) :
    (4 * (L - n) ≥ L) ↔ ((1 : ℚ)/4 ≤ ((L : ℚ) - (n : ℚ)) / (L : ℚ)) := by
  rw [div_le_div_iff (by norm_num) (by exact_mod_cast hL), one_mul]
  constructor
  · intro h
    have h' : (L : ℚ) ≤ ((4 * (L - n) : ℕ) : ℚ) := by exact_mod_cast h
    push_cast [hn] at h'
    linarith
  · intro h
    have h' : (L : ℚ) ≤ ((4 * (L - n) : ℕ) : ℚ) := by
      push_cast [hn]
      linarith
    exact_mod_cast h'

/-- C1 (code bug): `_mostly_blank` reduces over axis 0, which is the spatial
row axis of the channels-last `(H, W, 3)` crops its callers pass — not the
channel axis its docstring (and the spec) assume.  On the 1×1 RGB image
whose single pixel is `(1, 0, 0)` — fully non-blank under the
max-across-channel rule — the code classifies the image blank (zero-cell
fraction 2/3 over the `(column, channel)` cells of the row-maximum), while
the spec's rule classifies it not blank (zero-position fraction 0). -/
theorem C1_blank_axis_bug :
    _mostly_blank [[(1, 0, 0)]] = true ∧ spec_is_blank [[(1, 0, 0)]] = false := by
  decide

/-- C5: a group with no after-image fragments is rejected whole, before any
per-pair logic, with exactly one `after_blank` and one `rejected` increment;
likewise a group that has after-images but, with before-imagery in use, no
before-image fragments, is rejected whole with exactly one `before_blank`
and one `rejected` increment. -/
theorem C5_group_rejection (u : Bool) (lsize psize : ℕ) (key : String)
    (frags : List _FeatureUnion) :
    ((classifyFeatures frags).after_images = [] →
      GenerateExamplesFn_process u lsize psize (key, frags) =
        .ok ([], ⟨0, 1, 0, 1⟩)) ∧
    (u = true → (classifyFeatures frags).after_images ≠ [] →
      (classifyFeatures frags).before_images = [] →
      GenerateExamplesFn_process u lsize psize (key, frags) =
        .ok ([], ⟨0, 1, 1, 0⟩)) := by
  constructor
  · intro hafter
    rw [GenerateExamplesFn_process]
    dsimp only
    rw [if_pos (by rw [hafter]; rfl)]
  · intro hu hafter hbefore
    rw [GenerateExamplesFn_process]
    dsimp only
    rw [if_neg (by simpa [List.isEmpty_iff] using hafter),
      if_pos ⟨hu, by rw [hbefore]; rfl⟩]

/-- Witness for `C5_group_rejection` on concrete groups: one with scalar
features and a before-image only, one with scalar features and an
after-image only. -/
theorem C5_group_rejection_witness :
    GenerateExamplesFn_process true 2 2 ("k", fragsNoAfter) =
      .ok ([], ⟨0, 1, 0, 1⟩) ∧
    GenerateExamplesFn_process true 2 2 ("k", fragsNoBefore) =
      .ok ([], ⟨0, 1, 1, 0⟩) :=
  ⟨(C5_group_rejection true 2 2 "k" fragsNoAfter).1 (by decide),
   (C5_group_rejection true 2 2 "k" fragsNoBefore).2 rfl (by decide) (by decide)⟩

theorem dictGet_filter_none {l : List (String × Feature)}
    {p : String × Feature → Bool} {k : String}
    (hp : ∀ kv : String × Feature, kv.1 = k → p kv = false) :
    dictGet (l.filter p) k = none := by
  induction l with
  | nil => rfl
  | cons kv rest ih =>
    rw [List.filter_cons]
    cases hpkv : p kv with
    | false => simpa [hpkv] using ih
    | true =>
      have hne : kv.1 ≠ k := fun he => by rw [hp kv he] at hpkv; cases hpkv
      rw [if_pos rfl, dictGet_cons, if_neg (by simpa using hne)]
      exact ih

theorem dictGet_filter_other {l : List (String × Feature)}
    {p : String × Feature → Bool} {k : String}
    (hp : ∀ kv : String × Feature, kv.1 = k → p kv = true) :
    dictGet (l.filter p) k = dictGet l k := by
  induction l with
  | nil => rfl
  | cons kv rest ih =>
    rw [List.filter_cons]
    by_cases hk : kv.1 = k
    · rw [if_pos (by rw [hp kv hk])]
      rw [dictGet_cons, dictGet_cons, if_pos (by simpa using hk),
        if_pos (by simpa using hk)]
    · cases hpkv : p kv with
      | false =>
        rw [if_neg (by simp), ih, dictGet_cons, if_neg (by simpa using hk)]
      | true =>
        rw [if_pos rfl, dictGet_cons, dictGet_cons, if_neg (by simpa using hk),
          if_neg (by simpa using hk)]
        exact ih

/-- C9: the reduced example is the original with exactly the two
large-resolution image fields deleted — it is the order-preserving filter of
the original's bindings dropping only those two keys, the two keys are
absent from the result, and every other key maps to the byte-identical
value; the embedding is a pure function of `e` (the protobuf `CopyFrom`,
modelled by value copying, leaves the input untouched). -/
theorem C9_remove_large_images_projection (e : TfExample) (k : String)
    (hk1 : k ≠ "pre_image_png_large") (hk2 : k ≠ "post_image_png_large") :
    _remove_large_images e =
      e.filter (fun kv => decide (kv.1 ≠ "post_image_png_large") &&
        decide (kv.1 ≠ "pre_image_png_large")) ∧
    dictGet (_remove_large_images e) "pre_image_png_large" = none ∧
    dictGet (_remove_large_images e) "post_image_png_large" = none ∧
    dictGet (_remove_large_images e) k = dictGet e k := by
  have hcomb : _remove_large_images e =
      e.filter (fun kv => decide (kv.1 ≠ "post_image_png_large") &&
        decide (kv.1 ≠ "pre_image_png_large")) := by
    rw [_remove_large_images, List.filter_filter]
  refine ⟨hcomb, ?_, ?_, ?_⟩
  · rw [hcomb]
    exact dictGet_filter_none (by intro kv hkv; simp [hkv])
  · rw [hcomb]
    exact dictGet_filter_none (by intro kv hkv; simp [hkv])
  · rw [hcomb]
    exact dictGet_filter_other (by intro kv hkv; simp [hkv, hk1, hk2])

/-- Witness for `C9_remove_large_images_projection` at a concrete example
and a concrete preserved key. -/
theorem C9_remove_large_images_projection_witness :
    _remove_large_images
        [("example_id", Feature.bytes_list (BytesValue.str "x")),
         ("pre_image_png_large", Feature.bytes_list (BytesValue.png ones2)),
         ("post_image_png_large", Feature.bytes_list (BytesValue.png twos2)),
         ("label", Feature.float_list [1])] =
      List.filter (fun kv => decide (kv.1 ≠ "post_image_png_large") &&
        decide (kv.1 ≠ "pre_image_png_large"))
        [("example_id", Feature.bytes_list (BytesValue.str "x")),
         ("pre_image_png_large", Feature.bytes_list (BytesValue.png ones2)),
         ("post_image_png_large", Feature.bytes_list (BytesValue.png twos2)),
         ("label", Feature.float_list [1])] ∧
    dictGet (_remove_large_images
        [("example_id", Feature.bytes_list (BytesValue.str "x")),
         ("pre_image_png_large", Feature.bytes_list (BytesValue.png ones2)),
         ("post_image_png_large", Feature.bytes_list (BytesValue.png twos2)),
         ("label", Feature.float_list [1])]) "pre_image_png_large" = none ∧
    dictGet (_remove_large_images
        [("example_id", Feature.bytes_list (BytesValue.str "x")),
         ("pre_image_png_large", Feature.bytes_list (BytesValue.png ones2)),
         ("post_image_png_large", Feature.bytes_list (BytesValue.png twos2)),
         ("label", Feature.float_list [1])]) "post_image_png_large" = none ∧
    dictGet (_remove_large_images
        [("example_id", Feature.bytes_list (BytesValue.str "x")),
         ("pre_image_png_large", Feature.bytes_list (BytesValue.png ones2)),
         ("post_image_png_large", Feature.bytes_list (BytesValue.png twos2)),
         ("label", Feature.float_list [1])]) "example_id" =
      dictGet
        [("example_id", Feature.bytes_list (BytesValue.str "x")),
         ("pre_image_png_large", Feature.bytes_list (BytesValue.png ones2)),
         ("post_image_png_large", Feature.bytes_list (BytesValue.png twos2)),
         ("label", Feature.float_list [1])] "example_id" :=
  C9_remove_large_images_projection _ "example_id" (by decide) (by decide)

/-- C6: with before-imagery disabled, no alignment is performed and the
before-blank check never fires (the `before_blank` counter stays 0), and
every emitted example's before fields come from the synthetic all-zero
`large_patch_size`-sized image with the empty source id, while its large
after field is one of the group's after images unaligned. -/
theorem C6_no_before_mode (lsize psize : ℕ) (key : String)
    (frags : List _FeatureUnion) (out : List TfExample) (c : Counters)
    (h : GenerateExamplesFn_process false lsize psize (key, frags) = .ok (out, c)) :
    c.before_blank = 0 ∧
    ∀ e ∈ out,
      dictGet e "pre_image_id" = some (Feature.bytes_list (BytesValue.str "")) ∧
      dictGet e "pre_image_png_large" =
        some (Feature.bytes_list (BytesValue.png (zeroImage lsize))) ∧
      dictGet e "pre_image_png" =
        some (Feature.bytes_list (BytesValue.png (_center_crop (zeroImage lsize) psize))) ∧
      ∃ pa ∈ (classifyFeatures frags).after_images,
        dictGet e "post_image_png_large" =
          some (Feature.bytes_list (BytesValue.png pa.2)) := by
  rw [GenerateExamplesFn_process] at h
  dsimp only at h
  split_ifs at h with h1 h2 h3
  · injection h with h'
    injection h' with ho hc
    refine ⟨by rw [← hc], ?_⟩
    intro e he
    rw [← ho] at he
    simp at he
  · exact h2.1.elim
  · exact h3.elim
  · obtain ⟨dg, dr, db, da, hc1, hc2, hc3, hc4, hc5⟩ :=
      emitPairs_counters _ _ _ _ _ h
    rw [Counters.zero_add_left] at hc1
    constructor
    · rw [hc1]
      exact hc5 rfl
    · intro e he
      rcases emitPairs_mem _ _ _ _ _ h e he with hin | ⟨pr, hpr, dc, hcr⟩
      · simp at hin
      · obtain ⟨hprb, hpra⟩ := mem_pairs.mp hpr
        rw [List.mem_singleton] at hprb
        obtain ⟨aI, lon, lat, haI, -, -, hex⟩ := create_example_success hcr
        rw [if_neg (by simp : ¬(false = true))] at haI
        injection haI with haI'
        rw [hex, hprb]
        refine ⟨assemble_pre_id, assemble_pre_large, assemble_pre_png,
          pr.2, hpra, ?_⟩
        rw [← haI']
        exact assemble_post_large

/-- Witness for `C6_no_before_mode` at a concrete no-before-imagery group. -/
theorem C6_no_before_mode_witness :
    (okCnt (GenerateExamplesFn_process false 2 2 ("k", fragsNoBefore))).before_blank = 0 ∧
    ∀ e ∈ okOut (GenerateExamplesFn_process false 2 2 ("k", fragsNoBefore)),
      dictGet e "pre_image_id" = some (Feature.bytes_list (BytesValue.str "")) ∧
      dictGet e "pre_image_png_large" =
        some (Feature.bytes_list (BytesValue.png (zeroImage 2))) ∧
      dictGet e "pre_image_png" =
        some (Feature.bytes_list (BytesValue.png (_center_crop (zeroImage 2) 2))) ∧
      ∃ pa ∈ (classifyFeatures fragsNoBefore).after_images,
        dictGet e "post_image_png_large" =
          some (Feature.bytes_list (BytesValue.png pa.2)) :=
  C6_no_before_mode 2 2 "k" fragsNoBefore _ _ rfl

/-- C10: per-pair rejection bookkeeping — in every non-raising `process`
run, the rejected counter equals the sum of the two direction-specific
blank counters (each rejection, group-level or per-pair, bumps `rejected`
together with exactly one blank counter), the generated counter equals the
number of emitted examples, and for a group that passes the group-level
checks every one of the `m * n` cross-product pairs bumps exactly one of
`generated` or `rejected`. -/
theorem C10_counter_invariant (u : Bool) (lsize psize : ℕ) (key : String)
    (frags : List _FeatureUnion) (out : List TfExample) (c : Counters)
    (h : GenerateExamplesFn_process u lsize psize (key, frags) = .ok (out, c)) :
    c.rejected = c.before_blank + c.after_blank ∧
    c.generated = out.length ∧
    ((classifyFeatures frags).after_images ≠ [] →
     (u = true → (classifyFeatures frags).before_images ≠ []) →
     c.generated + c.rejected =
       (if u = true then (classifyFeatures frags).before_images.length else 1) *
         (classifyFeatures frags).after_images.length) := by
  rw [GenerateExamplesFn_process] at h
  dsimp only at h
  split_ifs at h with h1 h2 h3
  · injection h with h'
    injection h' with ho hc
    refine ⟨by rw [← hc]; rfl, by rw [← hc, ← ho]; rfl, ?_⟩
    intro hafter _
    exact absurd (List.isEmpty_iff.mp h1) hafter
  · injection h with h'
    injection h' with ho hc
    refine ⟨by rw [← hc]; rfl, by rw [← hc, ← ho]; rfl, ?_⟩
    intro hafter hbefore
    exact absurd (List.isEmpty_iff.mp h2.2) (hbefore h2.1)
  · obtain ⟨dg, dr, db, da, hc1, hc2, hc3', hc4, hc5⟩ :=
      emitPairs_counters _ _ _ _ _ h
    rw [Counters.zero_add_left] at hc1
    have hlen := length_pairs (classifyFeatures frags).before_images
      (classifyFeatures frags).after_images
    refine ⟨by rw [hc1]; exact hc2, ?_, ?_⟩
    · rw [hc1]
      show dg = out.length
      simp only [List.length_nil] at hc4
      omega
    · intro _ _
      rw [hc1]
      show dg + dr = _
      rw [hc3', hlen, if_pos h3]
  · obtain ⟨dg, dr, db, da, hc1, hc2, hc3', hc4, hc5⟩ :=
      emitPairs_counters _ _ _ _ _ h
    rw [Counters.zero_add_left] at hc1
    have hlen := length_pairs [("", zeroImage lsize)]
      (classifyFeatures frags).after_images
    refine ⟨by rw [hc1]; exact hc2, ?_, ?_⟩
    · rw [hc1]
      show dg = out.length
      simp only [List.length_nil] at hc4
      omega
    · intro _ _
      rw [hc1]
      show dg + dr = _
      rw [hc3', hlen, if_neg h3]
      simp

/-- Witness for `C10_counter_invariant` at a concrete group with one blank
and one non-blank after image (no before imagery). -/
theorem C10_counter_invariant_witness :
    (okCnt (GenerateExamplesFn_process false 2 2 ("k", fragsOneBlank))).rejected =
      (okCnt (GenerateExamplesFn_process false 2 2 ("k", fragsOneBlank))).before_blank +
      (okCnt (GenerateExamplesFn_process false 2 2 ("k", fragsOneBlank))).after_blank ∧
    (okCnt (GenerateExamplesFn_process false 2 2 ("k", fragsOneBlank))).generated =
      (okOut (GenerateExamplesFn_process false 2 2 ("k", fragsOneBlank))).length ∧
    (okCnt (GenerateExamplesFn_process false 2 2 ("k", fragsOneBlank))).generated +
      (okCnt (GenerateExamplesFn_process false 2 2 ("k", fragsOneBlank))).rejected =
      (if false = true then (classifyFeatures fragsOneBlank).before_images.length
       else 1) * (classifyFeatures fragsOneBlank).after_images.length := by
  have h := C10_counter_invariant false 2 2 "k" fragsOneBlank
    (okOut (GenerateExamplesFn_process false 2 2 ("k", fragsOneBlank)))
    (okCnt (GenerateExamplesFn_process false 2 2 ("k", fragsOneBlank))) rfl
  exact ⟨h.1, h.2.1, h.2.2 (by decide) (fun hf => nomatch hf)⟩

theorem map_pairs (l1 : List β) (l2 : List γ) (f : β × γ → δ) :
    (l1.flatMap (fun b => l2.map (fun a => (b, a)))).map f =
      l1.flatMap (fun b => l2.map (fun a => f (b, a))) := by
  rw [List.map_flatMap]
  simp only [List.map_map]
  rfl

/-- C4: for a group with `m` before-images and `n` after-images (both
nonzero) in which no pair raises or is rejected, `process` emits exactly
the `m * n` per-pair examples, iterating before-images (outer) then
after-images (inner) in the order collected; and on the concrete group
`frags6` with 2 before-images and 3 after-images, the 6 emitted examples
carry pairwise-distinct `example_id` features. -/
theorem C4_cross_product (lsize psize : ℕ) (key : String)
    (frags : List _FeatureUnion)
    (f : (String × RGBImage) × (String × RGBImage) → TfExample)
    (hb : (classifyFeatures frags).before_images ≠ [])
    (ha : (classifyFeatures frags).after_images ≠ [])
    (hf : ∀ b ∈ (classifyFeatures frags).before_images,
          ∀ a ∈ (classifyFeatures frags).after_images,
          _create_example true psize key b.1 b.2 a.1 a.2
            (classifyFeatures frags).scalar_features =
            .ok (some (f (b, a)), Counters.zero)) :
    (GenerateExamplesFn_process true lsize psize (key, frags) =
      .ok ((classifyFeatures frags).before_images.flatMap
            (fun b => (classifyFeatures frags).after_images.map (fun a => f (b, a))),
          ⟨(classifyFeatures frags).before_images.length *
             (classifyFeatures frags).after_images.length, 0, 0, 0⟩) ∧
    ((classifyFeatures frags).before_images.flatMap
       (fun b => (classifyFeatures frags).after_images.map (fun a => f (b, a)))).length =
      (classifyFeatures frags).before_images.length *
        (classifyFeatures frags).after_images.length) ∧
    (∃ out c, GenerateExamplesFn_process true 2 2 ("k", frags6) = .ok (out, c) ∧
      out.length = 6 ∧
      (out.map (fun e => dictGet e "example_id")).Nodup) := by
  refine ⟨⟨?_, ?_⟩, ?_⟩
  · rw [GenerateExamplesFn_process]
    dsimp only
    rw [if_neg (by simpa [List.isEmpty_iff] using ha),
      if_neg (by simp [List.isEmpty_iff]; exact hb), if_pos rfl]
    rw [emitPairs_all_ok f _ [] Counters.zero
      (by
        intro pr hpr
        obtain ⟨hprb, hpra⟩ := mem_pairs.mp hpr
        exact hf pr.1 hprb pr.2 hpra)]
    rw [List.nil_append, Counters.zero_add_left, map_pairs, length_pairs]
  · rw [List.length_flatMap]
    exact sum_map_const (by intro b _; simp)
  · refine ⟨okOut (GenerateExamplesFn_process true 2 2 ("k", frags6)),
      okCnt (GenerateExamplesFn_process true 2 2 ("k", frags6)), rfl, ?_, ?_⟩
    · decide
    · decide

/-- Witness for the universal part of `C4_cross_product`, applied at the
concrete 2-before × 3-after group `frags6`. -/
theorem C4_cross_product_witness :
    GenerateExamplesFn_process true 2 2 ("k", frags6) =
      .ok ((classifyFeatures frags6).before_images.flatMap
            (fun b => (classifyFeatures frags6).after_images.map
              (fun a => createdExampleOf true 2 "k"
                (classifyFeatures frags6).scalar_features b a)),
          ⟨(classifyFeatures frags6).before_images.length *
             (classifyFeatures frags6).after_images.length, 0, 0, 0⟩) :=
  (C4_cross_product 2 2 "k" frags6
    (fun pr => createdExampleOf true 2 "k"
      (classifyFeatures frags6).scalar_features pr.1 pr.2)
    (by decide) (by decide)
    (by
      intro b hb a ha
      fin_cases hb <;> fin_cases ha <;> rfl)).1.1

/-- C8: the example id written into an emitted example is the pure digest
`_make_example_id` of exactly the 4-tuple (longitude, latitude,
before-image id, after-image id) — independent of the encoded-coordinates
key, the images, the patch size and the before-imagery flag, so identical
inputs always produce the identical id string. -/
theorem C8_example_id_deterministic (u : Bool) (p : ℕ) (ec bid aid : String)
    (bimg aimg : RGBImage) (sf : ScalarMap) (e : TfExample) (dc : Counters)
    (lon lat : ℚ)
    (hco : dictGet sf "coordinates" = some [lon, lat])
    (h : _create_example u p ec bid bimg aid aimg sf = .ok (some e, dc)) :
    dictGet e "example_id" =
      some (Feature.bytes_list (BytesValue.str (_make_example_id lon lat bid aid))) := by
  obtain ⟨aI, lon', lat', -, hco', -, hex⟩ := create_example_success h
  rw [hco] at hco'
  injection hco' with hl
  injection hl with h1 h2
  injection h2 with h3
  rw [hex, ← h1, ← h3]
  exact assemble_example_id

/-- Witness for `C8_example_id_deterministic`: two concrete invocations
agreeing only on the 4-tuple (different keys, images and flags) both carry
the id digest of that 4-tuple. -/
theorem C8_example_id_deterministic_witness :
    dictGet (createdExampleOf false 2 "k1"
        [("coordinates", [3, 7])] ("b", ones2) ("a", twos2)) "example_id" =
      some (Feature.bytes_list (BytesValue.str (_make_example_id 3 7 "b" "a"))) ∧
    dictGet (createdExampleOf true 2 "k2"
        [("coordinates", [3, 7]), ("label", [1])] ("b", threes2) ("a", ones2)) "example_id" =
      some (Feature.bytes_list (BytesValue.str (_make_example_id 3 7 "b" "a"))) :=
  ⟨C8_example_id_deterministic false 2 "k1" "b" "a" ones2 twos2
      [("coordinates", [3, 7])] _ Counters.zero 3 7 (by decide) rfl,
   C8_example_id_deterministic true 2 "k2" "b" "a" threes2 ones2
      [("coordinates", [3, 7]), ("label", [1])] _ Counters.zero 3 7 (by decide) rfl⟩

/-- C7, counterexample: malformed fragment unions are silently tolerated,
not treated as errors.  The group `[fragBoth, afterFrag "a0" ones2]`
contains a fragment with two populated variants (scalar features *and* a
before image); `process` raises no error — it classifies the fragment as
scalar features, silently drops its before image, and then rejects the
group as having no before images.  A fragment with zero populated variants
is silently ignored: prepending it to a group leaves `process` unchanged. -/
theorem C7_counterexample :
    GenerateExamplesFn_process true 2 2 ("k", [fragBoth, afterFrag "a0" ones2]) =
      .ok ([], ⟨0, 1, 1, 0⟩) ∧
    GenerateExamplesFn_process true 2 2
        ("k", [fragNone, scalarFrag, beforeFrag "b0" ones2, afterFrag "a0" ones2]) =
      GenerateExamplesFn_process true 2 2
        ("k", [scalarFrag, beforeFrag "b0" ones2, afterFrag "a0" ones2]) := by
  constructor
  · rfl
  · rfl

/-- C7, amended: the classification loop never signals an error on a
malformed fragment union; it silently classifies a fragment with several
populated variants by its first populated field in the fixed order
`scalar_features`, `before_image`, `after_image` (dropping the rest), an
empty scalar map is falsy and falls through to the image fields, and a
fragment with no populated (truthy) variant is silently skipped. -/
theorem C7_fragment_union_priority (u : Bool) (l p : ℕ) (key : String)
    (pre post : List _FeatureUnion) (sfm : ScalarMap)
    (b a : String × RGBImage) (hs : sfm ≠ []) :
    (GenerateExamplesFn_process u l p
        (key, pre ++ (⟨some sfm, some b, some a⟩ : _FeatureUnion) :: post) =
      GenerateExamplesFn_process u l p
        (key, pre ++ (⟨some sfm, none, none⟩ : _FeatureUnion) :: post)) ∧
    (GenerateExamplesFn_process u l p
        (key, pre ++ (⟨none, some b, some a⟩ : _FeatureUnion) :: post) =
      GenerateExamplesFn_process u l p
        (key, pre ++ (⟨none, some b, none⟩ : _FeatureUnion) :: post)) ∧
    (GenerateExamplesFn_process u l p
        (key, pre ++ (⟨some [], some b, some a⟩ : _FeatureUnion) :: post) =
      GenerateExamplesFn_process u l p
        (key, pre ++ (⟨none, some b, some a⟩ : _FeatureUnion) :: post)) ∧
    (GenerateExamplesFn_process u l p
        (key, pre ++ (⟨none, none, none⟩ : _FeatureUnion) :: post) =
      GenerateExamplesFn_process u l p (key, pre ++ post)) := by
  have hproc : ∀ fr1 fr2 : List _FeatureUnion,
      classifyFeatures fr1 = classifyFeatures fr2 →
      GenerateExamplesFn_process u l p (key, fr1) =
        GenerateExamplesFn_process u l p (key, fr2) := by
    intro fr1 fr2 he
    rw [GenerateExamplesFn_process, GenerateExamplesFn_process]
    dsimp only
    rw [he]
  have hcf : ∀ f1 f2 : _FeatureUnion,
      (∀ acc, classifyStep acc f1 = classifyStep acc f2) →
      classifyFeatures (pre ++ f1 :: post) = classifyFeatures (pre ++ f2 :: post) := by
    intro f1 f2 hstep
    unfold classifyFeatures
    rw [List.foldl_append, List.foldl_append, List.foldl_cons, List.foldl_cons, hstep]
  have htruthy : sfm.isEmpty = false := by
    cases sfm with
    | nil => exact absurd rfl hs
    | cons x xs => rfl
  refine ⟨?_, ?_, ?_, ?_⟩
  · exact hproc _ _ (hcf _ _ (fun acc => by
      simp [classifyStep, scalarTruthy, htruthy]))
  · exact hproc _ _ (hcf _ _ (fun acc => by
      simp [classifyStep, scalarTruthy]))
  · exact hproc _ _ (hcf _ _ (fun acc => by
      simp [classifyStep, scalarTruthy]))
  · refine hproc _ _ ?_
    unfold classifyFeatures
    rw [List.foldl_append, List.foldl_append, List.foldl_cons]
    rfl

/-- Witness for `C7_fragment_union_priority` at concrete fragments. -/
theorem C7_fragment_union_priority_witness :
    (GenerateExamplesFn_process true 2 2
        ("k", [] ++ (⟨some [("coordinates", [3, 7])], some ("b0", ones2),
          some ("a9", twos2)⟩ : _FeatureUnion) :: [afterFrag "a0" ones2]) =
      GenerateExamplesFn_process true 2 2
        ("k", [] ++ (⟨some [("coordinates", [3, 7])], none, none⟩ :
          _FeatureUnion) :: [afterFrag "a0" ones2])) ∧
    (GenerateExamplesFn_process true 2 2
        ("k", [] ++ (⟨none, some ("b0", ones2), some ("a9", twos2)⟩ :
          _FeatureUnion) :: [afterFrag "a0" ones2]) =
      GenerateExamplesFn_process true 2 2
        ("k", [] ++ (⟨none, some ("b0", ones2), none⟩ :
          _FeatureUnion) :: [afterFrag "a0" ones2])) ∧
    (GenerateExamplesFn_process true 2 2
        ("k", [] ++ (⟨some [], some ("b0", ones2), some ("a9", twos2)⟩ :
          _FeatureUnion) :: [afterFrag "a0" ones2]) =
      GenerateExamplesFn_process true 2 2
        ("k", [] ++ (⟨none, some ("b0", ones2), some ("a9", twos2)⟩ :
          _FeatureUnion) :: [afterFrag "a0" ones2])) ∧
    (GenerateExamplesFn_process true 2 2
        ("k", [] ++ (⟨none, none, none⟩ : _FeatureUnion) :: [afterFrag "a0" ones2]) =
      GenerateExamplesFn_process true 2 2 ("k", [] ++ [afterFrag "a0" ones2])) :=
  C7_fragment_union_priority true 2 2 "k" [] [afterFrag "a0" ones2]
    [("coordinates", [3, 7])] ("b0", ones2) ("a9", twos2) (by decide)
